import Mathlib

/-!
Verification of the falling-words game mode of `cli_typer`.

The Go source (`falling.go`, the day/night cycle file, and the central
`model` struct) is embedded shallowly:

* Go `float64` values (word rows, fall speed, palette blending) are modelled
  as exact rationals `ℚ`; `int(f)` conversions are Go's truncation toward
  zero (`goTrunc`).
* Go `int` is modelled as `Int`, with Go's truncated division (`Int.tdiv`).
* Words are `List Char` (the word corpora are ASCII, so Go's byte length and
  rune length coincide).
* The random number stream consumed by `spawnFallingWord` (`rand.Intn`) and
  the word chosen from the corpus are passed in explicitly as parameters.
* Wall-clock fields (`fallingStartTime`) and audio command values are not part
  of the simulation state and are omitted; `calculateFallingResults` keeps its
  one state mutation (`correctWords`).
* The central `model` struct predates the falling mode in the checked-in
  `model.go`; its falling-mode fields are taken from their declarations and
  uses in the falling-mode sources.
-/

attribute [local semireducible] Rat.add Rat.mul Rat.sub Rat.inv Rat.ofScientific

/-- Go's `int(f)` conversion for a float: truncation toward zero.
For a rational `num/den` (with `den > 0`) this is `num.tdiv den`. -/
def goTrunc (q : ℚ) : Int := q.num.tdiv (q.den : Int)

-- Constants from falling.go.
def edgePadding : Int := 7
def laserDuration : Int := 3
def explodeDuration : Int := 4
def wingWidth : Int := 2

/-- `type fallingWord struct` from falling.go. -/
structure fallingWord where
  word : List Char
  x : Int
  y : ℚ
  typed : Nat
  active : Bool
  deriving DecidableEq

/-- `func (fw fallingWord) totalWidth() int` -/
def fallingWord.totalWidth (fw : fallingWord) : Int :=
  wingWidth + fw.word.length + wingWidth

/-- `func (fw fallingWord) leftEdge() int` -/
def fallingWord.leftEdge (fw : fallingWord) : Int :=
  fw.x - wingWidth

/-- `func (fw fallingWord) rightEdge() int` -/
def fallingWord.rightEdge (fw : fallingWord) : Int :=
  fw.x + fw.word.length + wingWidth

/-- `type explosion struct` from falling.go. -/
structure explosion where
  x : Int
  y : Int
  ticks : Int
  deriving DecidableEq

/-- `type laserBeam struct` from falling.go. -/
structure laserBeam where
  x : Int
  fromY : Int
  toY : Int
  ticks : Int
  deriving DecidableEq

/-- The screens of the application (`gameState` in model.go; the falling mode
adds a `stateFalling` screen). -/
inductive gameState where
  | stateMenu
  | stateTyping
  | stateResults
  | stateFalling
  deriving DecidableEq

/-- The key events consumed by `handleFallingKey` (`tea.KeyMsg` types). -/
inductive keyMsg where
  | esc
  | tab
  | backspace
  | space
  | rune (c : Char)
  deriving DecidableEq

/-- The central `model` struct, restricted to the fields read or written by
the falling mode. -/
structure model where
  state : gameState
  width : Int
  height : Int
  correctWords : Int
  fallingWords : List fallingWord
  fallingInput : List Char
  fallingTarget : Int
  fallingLives : Int
  fallingScore : Int
  fallingSpeed : ℚ
  fallingSpawnCD : Int
  fallingTicks : Int
  fallingGameOver : Bool
  fallingCharsTyped : Int
  turretX : Int
  turretStartX : Int
  explosions : List explosion
  laser : Option laserBeam
  deriving DecidableEq

/-- `func initFallingState(m model) model` from falling.go.
(`fallingStartTime = time.Now()` is wall-clock and not modelled.) -/
def initFallingState (m : model) : model :=
  { m with
    state := .stateFalling
    fallingWords := []
    fallingInput := []
    fallingTarget := -1
    fallingLives := 3
    fallingScore := 0
    fallingSpeed := 0.3
    fallingSpawnCD := 0
    fallingTicks := 0
    fallingGameOver := false
    fallingCharsTyped := 0
    turretX := m.width.tdiv 2
    explosions := []
    laser := none }

/-- `func fallingSpeedForTick(ticks int) float64` from falling.go. -/
def fallingSpeedForTick (ticks : Int) : ℚ :=
  let base : ℚ := 0.3
  let increments : ℚ := (ticks.tdiv 67 : Int)
  let speed := base + increments * 0.05
  if 1.5 < speed then 1.5 else speed

/-- `func fallingSpawnInterval(ticks int) int` from falling.go. -/
def fallingSpawnInterval (ticks : Int) : Int :=
  let base : Int := 20
  let reduction := ticks.tdiv 67
  let interval := base - reduction * 2
  if interval < 7 then 7 else interval

/-- The play height computed at the start of `fallingTick` (and again in
`handleFallingKey` and `viewFalling`): `screenHeight - 6`, floored at `5`. -/
def playHeightOf (height : Int) : Int :=
  let ph := height - 6
  if ph < 5 then 5 else ph

/-- The loop body of `func findTarget(m model, firstChar rune) int`:
scan the words (carrying the running index `i`), skipping active ones,
keeping the index of the word with the greatest row whose first rune matches. -/
def findTargetGo (firstChar : Char) : List fallingWord → Nat → Int → ℚ → Int
  | [], _, bestIdx, _ => bestIdx
  | fw :: rest, i, bestIdx, bestY =>
    if fw.active then findTargetGo firstChar rest (i + 1) bestIdx bestY
    else if 0 < fw.word.length ∧ fw.word.head? = some firstChar ∧ bestY < fw.y then
      findTargetGo firstChar rest (i + 1) (i : Int) fw.y
    else findTargetGo firstChar rest (i + 1) bestIdx bestY

/-- `func findTarget(m model, firstChar rune) int` from falling.go. -/
def findTarget (m : model) (firstChar : Char) : Int :=
  findTargetGo firstChar m.fallingWords 0 (-1) (-1)

/-- Go's in-place update `m.fallingWords[i].f = v` for an `int` index that the
code has bounds-checked: a no-op when the index is out of range. -/
def modifyWord (ws : List fallingWord) (i : Int) (f : fallingWord → fallingWord) :
    List fallingWord :=
  if h : 0 ≤ i ∧ i.toNat < ws.length then
    ws.set i.toNat (f (ws.get ⟨i.toNat, h.2⟩))
  else ws

/-- The beginning of the `tea.KeyRunes` branch of `handleFallingKey`:
append the rune to the input buffer and either select a target (when none is
committed) or update the committed target's typed count. -/
def runeSelectStage (m : model) (c : Char) : model :=
  let m1 := { m with fallingInput := m.fallingInput ++ [c] }
  if m1.fallingTarget = -1 then
    let t := findTarget m1 c
    if 0 ≤ t then
      { m1 with
        fallingTarget := t
        fallingWords := modifyWord m1.fallingWords t
          (fun fw => { fw with active := true, typed := 1 })
        turretStartX := m1.turretX }
    else { m1 with fallingTarget := t }
  else if m1.fallingTarget < (m1.fallingWords.length : Int) then
    { m1 with
      fallingWords := modifyWord m1.fallingWords m1.fallingTarget
        (fun fw => { fw with typed := m1.fallingInput.length }) }
  else m1

/-- The proportional turret move of the `tea.KeyRunes` branch: each keypress
covers an equal fraction of the distance from the anchored start to the
target's center. -/
def turretStage (m : model) : model :=
  if h : 0 ≤ m.fallingTarget ∧ m.fallingTarget.toNat < m.fallingWords.length then
    let fw := m.fallingWords.get ⟨m.fallingTarget.toNat, h.2⟩
    let targetX : Int := fw.x + (fw.word.length / 2 : Nat)
    let wordLen := fw.word.length
    if 0 < wordLen then
      let progress : ℚ := (m.fallingInput.length : ℚ) / (wordLen : ℚ)
      { m with turretX := m.turretStartX + goTrunc (progress * ((targetX - m.turretStartX : Int) : ℚ)) }
    else m
  else m

/-- The `tea.KeyRunes` branch of `handleFallingKey` up to (but not including)
the completion check. -/
def runeStage1 (m : model) (c : Char) : model :=
  turretStage (runeSelectStage m c)

/-- The completion check at the end of the `tea.KeyRunes` branch of
`handleFallingKey`: when the buffer equals the committed word, spawn the
laser and explosion, bump score and typed-character count, remove the word,
and clear target and buffer. -/
def runeDestroyCheck (m : model) : model :=
  if h : 0 ≤ m.fallingTarget ∧ m.fallingTarget.toNat < m.fallingWords.length then
    let fw := m.fallingWords.get ⟨m.fallingTarget.toNat, h.2⟩
    if m.fallingInput = fw.word then
      let wordCenterX : Int := fw.x + (fw.word.length / 2 : Nat)
      let wordRow : Int := goTrunc fw.y
      let ph := playHeightOf m.height
      { m with
        laser := some { x := wordCenterX, fromY := ph, toY := wordRow - 1, ticks := laserDuration }
        explosions := m.explosions ++ [{ x := wordCenterX, y := wordRow, ticks := explodeDuration }]
        turretX := wordCenterX
        fallingScore := m.fallingScore + 1
        fallingCharsTyped := m.fallingCharsTyped + fw.word.length
        fallingWords := m.fallingWords.eraseIdx m.fallingTarget.toNat
        fallingTarget := -1
        fallingInput := [] }
    else m
  else m

/-- `func handleFallingKey(m model, msg tea.KeyMsg) (model, tea.Cmd)` from
falling.go (the returned `tea.Cmd` values are audio/tick commands and are
not part of the simulation state). -/
def handleFallingKey (m : model) (k : keyMsg) : model :=
  match k with
  | .esc => { m with state := .stateMenu }
  | .tab => initFallingState m
  | .space => m
  | .backspace =>
    if m.fallingInput.length > 0 then
      let m1 := { m with fallingInput := m.fallingInput.dropLast }
      let m2 :=
        if 0 ≤ m1.fallingTarget ∧ m1.fallingTarget < (m1.fallingWords.length : Int) then
          { m1 with
            fallingWords := modifyWord m1.fallingWords m1.fallingTarget
              (fun fw => { fw with typed := m1.fallingInput.length }) }
        else m1
      if m2.fallingInput.length = 0 ∧ 0 ≤ m2.fallingTarget ∧
          m2.fallingTarget < (m2.fallingWords.length : Int) then
        { m2 with
          fallingWords := modifyWord m2.fallingWords m2.fallingTarget
            (fun fw => { fw with active := false, typed := 0 })
          fallingTarget := -1 }
      else m2
    else m
  | .rune c => runeDestroyCheck (runeStage1 m c)

/-- `func calculateFallingResults(m model) model` from falling.go: the local
`elapsed` (wall clock) is computed and discarded; the only state change is
`m.correctWords = m.fallingScore`. -/
def calculateFallingResults (m : model) : model :=
  { m with correctWords := m.fallingScore }

/-- `func overlapsExisting(m model, word string, x int) bool` from falling.go. -/
def overlapsExisting (m : model) (word : List Char) (x : Int) : Bool :=
  let newLeft := x - wingWidth
  let newRight := x + word.length + wingWidth
  m.fallingWords.any fun fw =>
    if 3 < fw.y then false
    else decide (newLeft < fw.rightEdge + 1 ∧ fw.leftEdge - 1 < newRight)

/-- The candidate column drawn on attempt `i` of `spawnFallingWord`:
`x = rand.Intn(maxX-minX) + minX`, with `f i` the `i`-th value of the random
stream (reduced modulo the interval length, which is what `rand.Intn` does to
a uniform draw). -/
def attemptCol (minX maxX : Int) (f : Nat → Nat) (i : Nat) : Int :=
  (f i : Int) % (maxX - minX) + minX

/-- `func spawnFallingWord(m model) model` from falling.go. The word chosen
from the corpus and the random column stream are explicit parameters. -/
def spawnFallingWord (m : model) (word : List Char) (f : Nat → Nat) : model :=
  let minX : Int := edgePadding
  let maxX0 : Int := m.width - word.length - edgePadding
  let maxX : Int := if maxX0 ≤ minX then minX + 1 else maxX0
  match (List.range 10).find? (fun i => !overlapsExisting m word (attemptCol minX maxX f i)) with
  | some i =>
    { m with
      fallingWords := m.fallingWords ++
        [{ word := word, x := attemptCol minX maxX f i, y := 0, typed := 0, active := false }] }
  | none =>
    -- All positions overlap: skip this spawn, set the forced cooldown.
    { m with fallingSpawnCD := 3 }

/-- The word positions after the `y += speed` loop at the top of
`fallingTick`. -/
def movedWords (m : model) : List fallingWord :=
  m.fallingWords.map fun fw => { fw with y := fw.y + m.fallingSpeed }

/-- The first statements of `fallingTick`: advance the tick counter, move the
words down by the current speed, and tick down the effects. -/
def tickAdvance (m : model) : model :=
  { m with
    fallingTicks := m.fallingTicks + 1
    fallingWords := movedWords m
    explosions := (m.explosions.map fun e => { e with ticks := e.ticks - 1 }).filter
      fun e => 0 < e.ticks
    laser := match m.laser with
      | some l => if l.ticks - 1 ≤ 0 then none else some { l with ticks := l.ticks - 1 }
      | none => none }

/-- The word text of the committed target, or `""` when the target index is
out of range (the `targetWord` local of `fallingTick`). -/
def targetWordOf (m : model) : List Char :=
  if h : 0 ≤ m.fallingTarget ∧ m.fallingTarget.toNat < m.fallingWords.length then
    (m.fallingWords.get ⟨m.fallingTarget.toNat, h.2⟩).word
  else []

/-- `int(fw.y) >= playHeight`: the word has hit the shield row. -/
def breached (ph : Int) (fw : fallingWord) : Bool :=
  decide (ph ≤ goTrunc fw.y)

/-- The word/boundary loop of `fallingTick`, processing words in order and
threading `lives`, the input buffer, the `targetWord` local, and the
`survived` accumulator.  `.inl input` is the early `return` taken when lives
run out (the model then gets `lives = 0`, `gameOver = true` and the word list
is left as it was); `.inr` carries the final loop state. -/
def breachLoop (ph : Int) :
    List fallingWord → Int → List Char → List Char → List fallingWord →
    (List Char) ⊕ (List fallingWord × Int × List Char × List Char)
  | [], lives, input, tw, acc => .inr (acc, lives, input, tw)
  | fw :: rest, lives, input, tw, acc =>
    if breached ph fw then
      let lives' := lives - 1
      let input' := if fw.active then [] else input
      let tw' := if fw.active then [] else tw
      if lives' ≤ 0 then .inl input'
      else breachLoop ph rest lives' input' tw' acc
    else breachLoop ph rest lives input tw (acc ++ [fw])

/-- The target re-resolution after the boundary loop of `fallingTick`:
`fallingTarget` is reset to `-1` and, when the remembered target word is
non-empty, re-found by scanning for an active word with the same text;
if the scan fails the input buffer is cleared. -/
def retargetStep (m : model) (tw : List Char) : model :=
  if tw = [] then { m with fallingTarget := -1 }
  else
    match m.fallingWords.findIdx? (fun fw => fw.active && fw.word == tw) with
    | some i => { m with fallingTarget := (i : Int) }
    | none => { m with fallingTarget := -1, fallingInput := [] }

/-- The spawn-countdown step of `fallingTick`: decrement the countdown and,
when it hits zero, spawn and then reset the countdown from the difficulty
model (note: this reset also overwrites the forced 3-tick cooldown that
`spawnFallingWord` sets when every placement attempt collides). -/
def spawnStep (m : model) (word : List Char) (f : Nat → Nat) : model :=
  let m1 := { m with fallingSpawnCD := m.fallingSpawnCD - 1 }
  if m1.fallingSpawnCD ≤ 0 then
    let m2 := spawnFallingWord m1 word f
    { m2 with fallingSpawnCD := fallingSpawnInterval m2.fallingTicks }
  else m1

/-- `func fallingTick(m model) model` from falling.go. -/
def fallingTick (m0 : model) (word : List Char) (f : Nat → Nat) : model :=
  let m := tickAdvance m0
  -- `tickAdvance` leaves `height`, `fallingLives` and `fallingInput` unchanged
  -- and sets `fallingWords` to `movedWords m0`, so the loop arguments are
  -- written in those terms.
  let ph := playHeightOf m0.height
  let tw := targetWordOf m
  match breachLoop ph (movedWords m0) m0.fallingLives m0.fallingInput tw [] with
  | .inl input' =>
    calculateFallingResults
      { m with fallingLives := 0, fallingGameOver := true, fallingInput := input' }
  | .inr (survived, lives', input', tw') =>
    let m1 := { m with fallingWords := survived, fallingLives := lives', fallingInput := input' }
    let m2 := retargetStep m1 tw'
    let m3 := spawnStep m2 word f
    { m3 with fallingSpeed := fallingSpeedForTick m3.fallingTicks }

/-- The `fallingTickMsg` branch of `func updateFalling`: a tick received
after game over leaves the model untouched (and does not re-arm the timer);
otherwise the tick is processed. -/
def updateFallingTickMsg (m : model) (word : List Char) (f : Nat → Nat) : model :=
  if m.fallingGameOver then m else fallingTick m word f

-- ## Day/night cycle (the day/night source file)

def fullCycleTicks : Nat := 800
def halfCycleTicks : Nat := 400

/-- `type rgb struct` from the day/night cycle file (float64 components,
modelled as exact rationals). -/
structure rgb where
  r : ℚ
  g : ℚ
  b : ℚ
  deriving DecidableEq

/-- `func clamp(v, lo, hi float64) float64` -/
def clamp (v lo hi : ℚ) : ℚ :=
  if v < lo then lo else if hi < v then hi else v

/-- `func lerpRGB(a, b rgb, t float64) rgb` -/
def lerpRGB (a b : rgb) (t : ℚ) : rgb :=
  let t := clamp t 0 1
  { r := a.r + (b.r - a.r) * t
    g := a.g + (b.g - a.g) * t
    b := a.b + (b.b - a.b) * t }

/-- `func (c rgb) toHex() string`, kept as the computed byte triple
(the `#rrggbb` formatting is display only): each component is clamped to
[0,255] and rounded (`math.Round`, half away from zero — the operand is
non-negative after the clamp, so this is `⌊x + 1/2⌋`). -/
def toHexTriple (c : rgb) : Nat × Nat × Nat :=
  ((goTrunc (clamp c.r 0 255 + 1/2)).toNat,
   (goTrunc (clamp c.g 0 255 + 1/2)).toNat,
   (goTrunc (clamp c.b 0 255 + 1/2)).toNat)

-- Color keyframes — foreground elements.
def dawnDim : rgb := { r := 138, g := 110, b := 66 }
def dawnText : rgb := { r := 212, g := 184, b := 150 }
def dawnAlien : rgb := { r := 156, g := 118, b := 68 }
def dawnShield : rgb := { r := 196, g := 154, b := 86 }
def dawnAccent : rgb := { r := 226, g := 168, b := 60 }
def dawnHint : rgb := { r := 138, g := 110, b := 66 }

def dayDim : rgb := { r := 140, g := 140, b := 155 }
def dayText : rgb := { r := 20, g := 20, b := 30 }
def dayAlien : rgb := { r := 50, g := 30, b := 110 }
def dayShield : rgb := { r := 20, g := 60, b := 140 }
def dayAccent : rgb := { r := 130, g := 80, b := 0 }
def dayHint : rgb := { r := 140, g := 140, b := 155 }

def sunsetDim : rgb := { r := 139, g := 64, b := 73 }
def sunsetText : rgb := { r := 212, g := 150, b := 122 }
def sunsetAlien : rgb := { r := 160, g := 72, b := 88 }
def sunsetShield : rgb := { r := 196, g := 90, b := 62 }
def sunsetAccent : rgb := { r := 220, g := 130, b := 50 }
def sunsetHint : rgb := { r := 139, g := 64, b := 73 }

def nightDim : rgb := { r := 70, g := 80, b := 110 }
def nightText : rgb := { r := 180, g := 190, b := 220 }
def nightAlien : rgb := { r := 90, g := 100, b := 160 }
def nightShield : rgb := { r := 100, g := 130, b := 190 }
def nightAccent : rgb := { r := 140, g := 170, b := 220 }
def nightHint : rgb := { r := 70, g := 80, b := 110 }

-- Background color keyframes.
def dawnBg : rgb := { r := 180, g := 140, b := 80 }
def dayBg : rgb := { r := 255, g := 255, b := 255 }
def sunsetBg : rgb := { r := 180, g := 100, b := 50 }
def nightBg : rgb := { r := 0, g := 0, b := 0 }

/-- `type cyclePalette struct` before the final `toHex` conversion: the seven
interpolated rgb values computed by the body of `cycleColors`. -/
structure cyclePaletteRgb where
  dim : rgb
  text : rgb
  alien : rgb
  shield : rgb
  accent : rgb
  hint : rgb
  bg : rgb
  deriving DecidableEq

/-- `type cyclePalette struct` from the day/night cycle file: the seven
colors, as computed hex byte triples. -/
structure cyclePalette where
  dim : Nat × Nat × Nat
  text : Nat × Nat × Nat
  alien : Nat × Nat × Nat
  shield : Nat × Nat × Nat
  accent : Nat × Nat × Nat
  hint : Nat × Nat × Nat
  bg : Nat × Nat × Nat
  deriving DecidableEq

/-- The body of `func cycleColors(tick int) cyclePalette` applied to
`pos = tick % fullCycleTicks`. -/
def cycleColorsPos (pos : Nat) : cyclePaletteRgb :=
  let isDay := pos < halfCycleTicks
  let progress : ℚ :=
    if isDay then (pos : ℚ) / (halfCycleTicks : ℚ)
    else ((pos : ℚ) - (halfCycleTicks : ℚ)) / (halfCycleTicks : ℚ)
  -- Transition zones are 8% of the arc.
  let edge : ℚ := 0.08
  if isDay then
    if progress < edge then
      let t := progress / edge
      { dim := lerpRGB dawnDim dayDim t, text := lerpRGB dawnText dayText t
        alien := lerpRGB dawnAlien dayAlien t, shield := lerpRGB dawnShield dayShield t
        accent := lerpRGB dawnAccent dayAccent t, hint := lerpRGB dawnHint dayHint t
        bg := lerpRGB dawnBg dayBg t }
    else if progress < 1 - edge then
      { dim := dayDim, text := dayText, alien := dayAlien, shield := dayShield
        accent := dayAccent, hint := dayHint, bg := dayBg }
    else
      let t := (progress - (1 - edge)) / edge
      { dim := lerpRGB dayDim sunsetDim t, text := lerpRGB dayText sunsetText t
        alien := lerpRGB dayAlien sunsetAlien t, shield := lerpRGB dayShield sunsetShield t
        accent := lerpRGB dayAccent sunsetAccent t, hint := lerpRGB dayHint sunsetHint t
        bg := lerpRGB dayBg sunsetBg t }
  else
    if progress < edge then
      let t := progress / edge
      { dim := lerpRGB sunsetDim nightDim t, text := lerpRGB sunsetText nightText t
        alien := lerpRGB sunsetAlien nightAlien t, shield := lerpRGB sunsetShield nightShield t
        accent := lerpRGB sunsetAccent nightAccent t, hint := lerpRGB sunsetHint nightHint t
        bg := lerpRGB sunsetBg nightBg t }
    else if progress < 1 - edge then
      { dim := nightDim, text := nightText, alien := nightAlien, shield := nightShield
        accent := nightAccent, hint := nightHint, bg := nightBg }
    else
      let t := (progress - (1 - edge)) / edge
      { dim := lerpRGB nightDim dawnDim t, text := lerpRGB nightText dawnText t
        alien := lerpRGB nightAlien dawnAlien t, shield := lerpRGB nightShield dawnShield t
        accent := lerpRGB nightAccent dawnAccent t, hint := lerpRGB nightHint dawnHint t
        bg := lerpRGB nightBg dawnBg t }

/-- `func cycleColors(tick int) cyclePalette` from the day/night cycle file
(tick counts are non-negative). -/
def cycleColors (tick : Nat) : cyclePalette :=
  let p := cycleColorsPos (tick % fullCycleTicks)
  { dim := toHexTriple p.dim, text := toHexTriple p.text, alien := toHexTriple p.alien
    shield := toHexTriple p.shield, accent := toHexTriple p.accent
    hint := toHexTriple p.hint, bg := toHexTriple p.bg }

-- ## Helper lemmas

lemma tdiv67_nonneg {t : Int} (ht : 0 ≤ t) : 0 ≤ t.tdiv 67 :=
  Int.tdiv_nonneg ht (by norm_num)

lemma tdiv67_mono {t1 t2 : Int} (h0 : 0 ≤ t1) (h12 : t1 ≤ t2) :
    t1.tdiv 67 ≤ t2.tdiv 67 := by
  rw [Int.tdiv_eq_ediv h0 (by norm_num), Int.tdiv_eq_ediv (h0.trans h12) (by norm_num)]
  exact Int.ediv_le_ediv (by norm_num) h12

-- ## Claim C3

/-- **C3.** The difficulty functions are monotone and bounded: for tick counts
`0 ≤ t1 < t2`, `speed t1 ≤ speed t2` and `spawnInterval t2 ≤ spawnInterval t1`;
and for every tick count `t ≥ 0`, `0.3 ≤ speed t ≤ 1.5` and
`7 ≤ spawnInterval t ≤ 20`. -/
theorem C3_difficulty_monotone_bounded (t1 t2 : Int) (h0 : 0 ≤ t1) (h12 : t1 < t2) :
    fallingSpeedForTick t1 ≤ fallingSpeedForTick t2 ∧
    fallingSpawnInterval t2 ≤ fallingSpawnInterval t1 ∧
    ∀ t : Int, 0 ≤ t →
      (0.3 : ℚ) ≤ fallingSpeedForTick t ∧ fallingSpeedForTick t ≤ 1.5 ∧
      7 ≤ fallingSpawnInterval t ∧ fallingSpawnInterval t ≤ 20 := by
  have hk12 : t1.tdiv 67 ≤ t2.tdiv 67 := tdiv67_mono h0 h12.le
  have hkq : ((t1.tdiv 67 : Int) : ℚ) ≤ ((t2.tdiv 67 : Int) : ℚ) := by exact_mod_cast hk12
  refine ⟨?_, ?_, ?_⟩
  · simp only [fallingSpeedForTick]
    split <;> split <;> nlinarith [hkq]
  · simp only [fallingSpawnInterval]
    split <;> split <;> omega
  · intro t ht
    have hk : (0 : Int) ≤ t.tdiv 67 := tdiv67_nonneg ht
    have hkq' : (0 : ℚ) ≤ ((t.tdiv 67 : Int) : ℚ) := by exact_mod_cast hk
    refine ⟨?_, ?_, ?_, ?_⟩
    · simp only [fallingSpeedForTick]
      split <;> nlinarith [hkq']
    · simp only [fallingSpeedForTick]
      split <;> nlinarith [hkq']
    · simp only [fallingSpawnInterval]
      split <;> omega
    · simp only [fallingSpawnInterval]
      split <;> omega

/-- Witness for C3 at `t1 = 0`, `t2 = 67`. -/
theorem C3_witness :
    (0 : Int) ≤ 0 ∧ (0 : Int) < 67 ∧
    (fallingSpeedForTick 0 ≤ fallingSpeedForTick 67 ∧
     fallingSpawnInterval 67 ≤ fallingSpawnInterval 0 ∧
     ∀ t : Int, 0 ≤ t →
       (0.3 : ℚ) ≤ fallingSpeedForTick t ∧ fallingSpeedForTick t ≤ 1.5 ∧
       7 ≤ fallingSpawnInterval t ∧ fallingSpawnInterval t ≤ 20) :=
  ⟨le_refl 0, by decide, C3_difficulty_monotone_bounded 0 67 (le_refl 0) (by decide)⟩

-- ## Claim C5

/-- A state in which the one live word (near the top, row `y = 1`) spans every
candidate spawn column, so that all 10 placement attempts collide; its spawn
countdown is about to fire. -/
def congestedModel : model :=
  { state := .stateFalling, width := 40, height := 20, correctWords := 0
    fallingWords := [{ word := ['s','u','p','e','r','l','o','n','g','b','l','o','c','k','i','n','g','i','t'],
                       x := 7, y := 1, typed := 0, active := false }]
    fallingInput := [], fallingTarget := -1, fallingLives := 3, fallingScore := 0
    fallingSpeed := 0.3, fallingSpawnCD := 1, fallingTicks := 0, fallingGameOver := false
    fallingCharsTyped := 0, turretX := 20, turretStartX := 20, explosions := [], laser := none }

/-- **C5.** `spawnFallingWord` itself does set the forced 3-tick cooldown when
all 10 attempts collide (and places no word) — but the caller `fallingTick`
then unconditionally overwrites the countdown with the difficulty-model
interval (here `fallingSpawnInterval 1 = 20`), so the forced cooldown never
survives a tick: the retry does *not* happen sooner than the normal spawn
interval. -/
theorem C5_forced_cooldown_dead_store :
    (spawnFallingWord congestedModel ['a','b'] (fun _ => 0)).fallingSpawnCD = 3 ∧
    (spawnFallingWord congestedModel ['a','b'] (fun _ => 0)).fallingWords =
      congestedModel.fallingWords ∧
    (fallingTick congestedModel ['a','b'] (fun _ => 0)).fallingWords.length = 1 ∧
    (fallingTick congestedModel ['a','b'] (fun _ => 0)).fallingSpawnCD = 20 ∧
    fallingSpawnInterval 1 = 20 := by
  decide

-- ## Claim C7

/-- **C7.** The day/night palette function is periodic with period 800 ticks:
for every tick count `t ≥ 0` (a `Nat`), `cycleColors (t + 800)` equals
`cycleColors t` in all seven color components. -/
theorem C7_palette_periodic (t : Nat) :
    (cycleColors (t + 800)).dim = (cycleColors t).dim ∧
    (cycleColors (t + 800)).text = (cycleColors t).text ∧
    (cycleColors (t + 800)).alien = (cycleColors t).alien ∧
    (cycleColors (t + 800)).shield = (cycleColors t).shield ∧
    (cycleColors (t + 800)).accent = (cycleColors t).accent ∧
    (cycleColors (t + 800)).hint = (cycleColors t).hint ∧
    (cycleColors (t + 800)).bg = (cycleColors t).bg := by
  have h : cycleColors (t + 800) = cycleColors t := by
    unfold cycleColors
    rw [show (t + 800) % fullCycleTicks = t % fullCycleTicks from Nat.add_mod_right t 800]
  rw [h]
  exact ⟨rfl, rfl, rfl, rfl, rfl, rfl, rfl⟩

/-- Witness for C7 at `t = 123`. -/
theorem C7_witness :
    (cycleColors (123 + 800)).dim = (cycleColors 123).dim ∧
    (cycleColors (123 + 800)).text = (cycleColors 123).text ∧
    (cycleColors (123 + 800)).alien = (cycleColors 123).alien ∧
    (cycleColors (123 + 800)).shield = (cycleColors 123).shield ∧
    (cycleColors (123 + 800)).accent = (cycleColors 123).accent ∧
    (cycleColors (123 + 800)).hint = (cycleColors 123).hint ∧
    (cycleColors (123 + 800)).bg = (cycleColors 123).bg :=
  C7_palette_periodic 123

-- ## Claim C8

/-- **C8 as stated is false at tick 670**: the speed formula
`0.3 + 0.05 * (670 / 67) = 0.3 + 0.05 * 10` gives `0.8`, not the cap `1.5`. -/
theorem C8_counterexample :
    fallingSpeedForTick 670 = 0.8 ∧ (0.8 : ℚ) ≠ 1.5 := by
  decide

/-- **C8 (amended).** A fresh session starts with `lives = 3`, `score = 0`,
`speed = 0.3`; at 67 ticks the difficulty functions give `speed = 0.35` and
`spawnInterval = 18`; at 670 ticks they give `speed = 0.8` and
`spawnInterval = 7` (floored); the `1.5` speed cap is first reached at
`24 * 67 = 1608` ticks. -/
theorem C8_difficulty_scenario (m : model) :
    (initFallingState m).fallingLives = 3 ∧
    (initFallingState m).fallingScore = 0 ∧
    (initFallingState m).fallingSpeed = 0.3 ∧
    fallingSpeedForTick 67 = 0.35 ∧ fallingSpawnInterval 67 = 18 ∧
    fallingSpeedForTick 670 = 0.8 ∧ fallingSpawnInterval 670 = 7 ∧
    fallingSpeedForTick 1608 = 1.5 ∧ fallingSpeedForTick 1607 ≠ 1.5 :=
  ⟨rfl, rfl, rfl, by decide, by decide, by decide, by decide, by decide, by decide⟩

/-- Witness for C8 at the initial model of the application. -/
theorem C8_witness :
    (initFallingState
      { state := .stateMenu, width := 0, height := 0, correctWords := 0, fallingWords := []
        fallingInput := [], fallingTarget := -1, fallingLives := 0, fallingScore := 0
        fallingSpeed := 0, fallingSpawnCD := 0, fallingTicks := 0, fallingGameOver := false
        fallingCharsTyped := 0, turretX := 0, turretStartX := 0, explosions := []
        laser := none }).fallingLives = 3 ∧
    (initFallingState
      { state := .stateMenu, width := 0, height := 0, correctWords := 0, fallingWords := []
        fallingInput := [], fallingTarget := -1, fallingLives := 0, fallingScore := 0
        fallingSpeed := 0, fallingSpawnCD := 0, fallingTicks := 0, fallingGameOver := false
        fallingCharsTyped := 0, turretX := 0, turretStartX := 0, explosions := []
        laser := none }).fallingScore = 0 ∧
    (initFallingState
      { state := .stateMenu, width := 0, height := 0, correctWords := 0, fallingWords := []
        fallingInput := [], fallingTarget := -1, fallingLives := 0, fallingScore := 0
        fallingSpeed := 0, fallingSpawnCD := 0, fallingTicks := 0, fallingGameOver := false
        fallingCharsTyped := 0, turretX := 0, turretStartX := 0, explosions := []
        laser := none }).fallingSpeed = 0.3 ∧
    fallingSpeedForTick 67 = 0.35 ∧ fallingSpawnInterval 67 = 18 ∧
    fallingSpeedForTick 670 = 0.8 ∧ fallingSpawnInterval 670 = 7 ∧
    fallingSpeedForTick 1608 = 1.5 ∧ fallingSpeedForTick 1607 ≠ 1.5 :=
  C8_difficulty_scenario _

-- ## Claim C1

/-- `runeStage1` only touches the input buffer, the words, the target index
and the turret: score, effects, typed-character count, screen size and the
laser are unchanged. -/
lemma runeStage1_fixed (m : model) (c : Char) :
    (runeStage1 m c).fallingScore = m.fallingScore ∧
    (runeStage1 m c).explosions = m.explosions ∧
    (runeStage1 m c).fallingCharsTyped = m.fallingCharsTyped ∧
    (runeStage1 m c).height = m.height ∧
    (runeStage1 m c).laser = m.laser := by
  have h1 : ∀ mm : model,
      (turretStage mm).fallingScore = mm.fallingScore ∧
      (turretStage mm).explosions = mm.explosions ∧
      (turretStage mm).fallingCharsTyped = mm.fallingCharsTyped ∧
      (turretStage mm).height = mm.height ∧
      (turretStage mm).laser = mm.laser := by
    intro mm
    unfold turretStage
    split
    · dsimp only
      split
      · exact ⟨rfl, rfl, rfl, rfl, rfl⟩
      · exact ⟨rfl, rfl, rfl, rfl, rfl⟩
    · exact ⟨rfl, rfl, rfl, rfl, rfl⟩
  have h2 :
      (runeSelectStage m c).fallingScore = m.fallingScore ∧
      (runeSelectStage m c).explosions = m.explosions ∧
      (runeSelectStage m c).fallingCharsTyped = m.fallingCharsTyped ∧
      (runeSelectStage m c).height = m.height ∧
      (runeSelectStage m c).laser = m.laser := by
    unfold runeSelectStage
    dsimp only
    split
    · split
      · exact ⟨rfl, rfl, rfl, rfl, rfl⟩
      · exact ⟨rfl, rfl, rfl, rfl, rfl⟩
    · split
      · exact ⟨rfl, rfl, rfl, rfl, rfl⟩
      · exact ⟨rfl, rfl, rfl, rfl, rfl⟩
  obtain ⟨a1, a2, a3, a4, a5⟩ := h1 (runeSelectStage m c)
  obtain ⟨b1, b2, b3, b4, b5⟩ := h2
  exact ⟨by rw [runeStage1, a1, b1], by rw [runeStage1, a2, b2],
         by rw [runeStage1, a3, b3], by rw [runeStage1, a4, b4],
         by rw [runeStage1, a5, b5]⟩

/-- **C1.** In the falling mode, whenever the input buffer becomes exactly
equal to the committed target word's text after a character keystroke
(`runeStage1` is the keystroke processing up to the completion check), that
word — and only that word — is removed (`eraseIdx` at the target index), the
score is incremented by 1, a laser beam is installed (the `laser` field holds
at most one laser, the new one replacing any old one) and an explosion is
appended, the typed-character count grows by the word's length, and the
target index and input buffer are cleared. -/
theorem C1_exact_match_destroys (m : model) (c : Char)
    (h0 : 0 ≤ (runeStage1 m c).fallingTarget)
    (hlen : (runeStage1 m c).fallingTarget.toNat < (runeStage1 m c).fallingWords.length)
    (fw : fallingWord)
    (hfw : (runeStage1 m c).fallingWords.get
      ⟨(runeStage1 m c).fallingTarget.toNat, hlen⟩ = fw)
    (heq : (runeStage1 m c).fallingInput = fw.word) :
    (handleFallingKey m (.rune c)).fallingWords =
      (runeStage1 m c).fallingWords.eraseIdx (runeStage1 m c).fallingTarget.toNat ∧
    (handleFallingKey m (.rune c)).fallingScore = m.fallingScore + 1 ∧
    (handleFallingKey m (.rune c)).laser =
      some { x := fw.x + (fw.word.length / 2 : Nat), fromY := playHeightOf m.height,
             toY := goTrunc fw.y - 1, ticks := laserDuration } ∧
    (handleFallingKey m (.rune c)).explosions =
      m.explosions ++ [{ x := fw.x + (fw.word.length / 2 : Nat), y := goTrunc fw.y,
                         ticks := explodeDuration }] ∧
    (handleFallingKey m (.rune c)).fallingCharsTyped =
      m.fallingCharsTyped + fw.word.length ∧
    (handleFallingKey m (.rune c)).fallingTarget = -1 ∧
    (handleFallingKey m (.rune c)).fallingInput = [] := by
  have hkey : handleFallingKey m (.rune c) = runeDestroyCheck (runeStage1 m c) := rfl
  obtain ⟨hsc, hex, hct, hh, -⟩ := runeStage1_fixed m c
  have hres : runeDestroyCheck (runeStage1 m c) =
      { runeStage1 m c with
        laser := some { x := fw.x + (fw.word.length / 2 : Nat),
                        fromY := playHeightOf (runeStage1 m c).height,
                        toY := goTrunc fw.y - 1, ticks := laserDuration }
        explosions := (runeStage1 m c).explosions ++
          [{ x := fw.x + (fw.word.length / 2 : Nat), y := goTrunc fw.y,
             ticks := explodeDuration }]
        turretX := fw.x + (fw.word.length / 2 : Nat)
        fallingScore := (runeStage1 m c).fallingScore + 1
        fallingCharsTyped := (runeStage1 m c).fallingCharsTyped + fw.word.length
        fallingWords := (runeStage1 m c).fallingWords.eraseIdx
          (runeStage1 m c).fallingTarget.toNat
        fallingTarget := -1
        fallingInput := [] } := by
    unfold runeDestroyCheck
    rw [dif_pos ⟨h0, hlen⟩]
    dsimp only
    rw [hfw, if_pos heq]
  rw [hkey, hres]
  exact ⟨rfl, by rw [hsc], by rw [hh], by rw [hex], by rw [hct], rfl, rfl⟩

/-- Concrete state for the C1 witness: one word `ab`, buffer `a`, already
targeted; typing `b` completes it. -/
def C1model : model :=
  { state := .stateFalling, width := 40, height := 20, correctWords := 0
    fallingWords := [{ word := ['a','b'], x := 10, y := 2, typed := 1, active := true }]
    fallingInput := ['a'], fallingTarget := 0, fallingLives := 3, fallingScore := 0
    fallingSpeed := 0.3, fallingSpawnCD := 5, fallingTicks := 0, fallingGameOver := false
    fallingCharsTyped := 0, turretX := 20, turretStartX := 20, explosions := [], laser := none }

/-- The targeted word of `C1model` as it stands after the `b` keystroke's
select/typed stage. -/
def C1fw : fallingWord :=
  { word := ['a','b'], x := 10, y := 2, typed := 2, active := true }

/-- Witness for C1: typing `b` on `C1model` destroys the word `ab`. -/
theorem C1_witness :
    (handleFallingKey C1model (.rune 'b')).fallingWords =
      (runeStage1 C1model 'b').fallingWords.eraseIdx
        (runeStage1 C1model 'b').fallingTarget.toNat ∧
    (handleFallingKey C1model (.rune 'b')).fallingScore = C1model.fallingScore + 1 ∧
    (handleFallingKey C1model (.rune 'b')).laser =
      some { x := C1fw.x + (C1fw.word.length / 2 : Nat), fromY := playHeightOf C1model.height,
             toY := goTrunc C1fw.y - 1, ticks := laserDuration } ∧
    (handleFallingKey C1model (.rune 'b')).explosions =
      C1model.explosions ++ [{ x := C1fw.x + (C1fw.word.length / 2 : Nat), y := goTrunc C1fw.y,
                               ticks := explodeDuration }] ∧
    (handleFallingKey C1model (.rune 'b')).fallingCharsTyped =
      C1model.fallingCharsTyped + C1fw.word.length ∧
    (handleFallingKey C1model (.rune 'b')).fallingTarget = -1 ∧
    (handleFallingKey C1model (.rune 'b')).fallingInput = [] :=
  C1_exact_match_destroys C1model 'b' (by decide) (by decide) C1fw (by decide) (by decide)

-- ## Claim C4

lemma attemptCol_bounds {minX maxX : Int} (h : minX < maxX) (f : Nat → Nat) (i : Nat) :
    minX ≤ attemptCol minX maxX f i ∧ attemptCol minX maxX f i < maxX := by
  unfold attemptCol
  have h1 := Int.emod_nonneg (f i : Int) (by omega : maxX - minX ≠ 0)
  have h2 := Int.emod_lt_of_pos (f i : Int) (by omega : 0 < maxX - minX)
  omega

lemma not_overlaps_gap {m : model} {word : List Char} {x : Int}
    (h : overlapsExisting m word x = false) :
    ∀ fw ∈ m.fallingWords, fw.y ≤ 3 →
      fw.rightEdge + 1 ≤ x - wingWidth ∨ x + word.length + wingWidth + 1 ≤ fw.leftEdge := by
  intro fw hfw hy
  unfold overlapsExisting at h
  rw [List.any_eq_false] at h
  have hfw' := h fw hfw
  rw [if_neg (not_lt.mpr hy)] at hfw'
  simp only [decide_eq_true_eq, not_and, not_lt] at hfw'
  by_cases hcase : x - wingWidth < fw.rightEdge + 1
  · exact Or.inr (by have := hfw' hcase; omega)
  · exact Or.inl (by omega)

/-- **C4 (amended).** Provided the screen is wide enough for the word
(`edgePadding < screenWidth − wordLength − edgePadding`), the placement
engine tries at most 10 random columns, all within
`[edgePadding, screenWidth − wordLength − edgePadding]`; any placed word's
horizontal span, wings included, keeps a gap of at least one column from the
span of every existing word whose row `y` is at most 3; and when all 10
attempts collide, no word at all is placed and only the spawn countdown is
touched. (On narrower screens the single clamped column `edgePadding` is
tried instead — see the counterexample.) -/
theorem C4_placement (m : model) (word : List Char) (f : Nat → Nat)
    (hW : edgePadding < m.width - word.length - edgePadding) :
    (∀ i : Nat, i < 10 →
      edgePadding ≤ attemptCol edgePadding (m.width - word.length - edgePadding) f i ∧
      attemptCol edgePadding (m.width - word.length - edgePadding) f i ≤
        m.width - word.length - edgePadding) ∧
    ((spawnFallingWord m word f).fallingWords = m.fallingWords ∨
      ∃ x : Int,
        (spawnFallingWord m word f).fallingWords =
          m.fallingWords ++ [{ word := word, x := x, y := 0, typed := 0, active := false }] ∧
        edgePadding ≤ x ∧ x ≤ m.width - word.length - edgePadding ∧
        ∀ fw ∈ m.fallingWords, fw.y ≤ 3 →
          fw.rightEdge + 1 ≤ x - wingWidth ∨ x + word.length + wingWidth + 1 ≤ fw.leftEdge) ∧
    ((List.range 10).find?
        (fun i => !overlapsExisting m word
          (attemptCol edgePadding (m.width - word.length - edgePadding) f i)) = none →
      spawnFallingWord m word f = { m with fallingSpawnCD := 3 }) := by
  have hmax : ¬(m.width - (word.length : Int) - edgePadding ≤ edgePadding) := not_le.mpr hW
  have hspawn : spawnFallingWord m word f =
      match (List.range 10).find?
        (fun i => !overlapsExisting m word
          (attemptCol edgePadding (m.width - word.length - edgePadding) f i)) with
      | some i =>
        { m with fallingWords := m.fallingWords ++
            [{ word := word,
               x := attemptCol edgePadding (m.width - word.length - edgePadding) f i,
               y := 0, typed := 0, active := false }] }
      | none => { m with fallingSpawnCD := 3 } := by
    unfold spawnFallingWord
    dsimp only
    rw [if_neg hmax]
  refine ⟨?_, ?_, ?_⟩
  · intro i _
    have hb := attemptCol_bounds hW f i
    exact ⟨hb.1, by omega⟩
  · cases hf : (List.range 10).find?
        (fun i => !overlapsExisting m word
          (attemptCol edgePadding (m.width - word.length - edgePadding) f i)) with
    | none => exact Or.inl (by rw [hspawn, hf])
    | some i =>
      refine Or.inr ⟨attemptCol edgePadding (m.width - word.length - edgePadding) f i,
        by rw [hspawn, hf], (attemptCol_bounds hW f i).1,
        by have := (attemptCol_bounds hW f i).2; omega, ?_⟩
      have hpred := List.find?_some hf
      simp only [Bool.not_eq_true'] at hpred
      exact not_overlaps_gap hpred
  · intro hf
    rw [hspawn, hf]

/-- A narrow screen: `width = 10`, so for a 5-letter word the claimed spawn
interval `[edgePadding, width − wordLength − edgePadding] = [7, −2]` is empty. -/
def narrowModel : model :=
  { state := .stateFalling, width := 10, height := 20, correctWords := 0
    fallingWords := [], fallingInput := [], fallingTarget := -1, fallingLives := 3
    fallingScore := 0, fallingSpeed := 0.3, fallingSpawnCD := 5, fallingTicks := 0
    fallingGameOver := false, fallingCharsTyped := 0, turretX := 5, turretStartX := 5
    explosions := [], laser := none }

/-- **C4 as stated is false on a narrow screen**: the engine clamps the empty
random range to a single candidate and places the word at column
`edgePadding = 7`, which does not lie within the claimed interval
`[edgePadding, screenWidth − wordWidth − edgePadding]` (here `[7, −2]`,
which is empty). -/
theorem C4_counterexample :
    (spawnFallingWord narrowModel ['h','e','l','l','o'] (fun _ => 0)).fallingWords =
      [{ word := ['h','e','l','l','o'], x := 7, y := 0, typed := 0, active := false }] ∧
    ¬(edgePadding ≤ narrowModel.width - (['h','e','l','l','o'].length : Int) - edgePadding) := by
  decide

/-- Concrete state for the C4 witness: width 40, one existing word near the
spawn line. -/
def C4model : model :=
  { state := .stateFalling, width := 40, height := 20, correctWords := 0
    fallingWords := [{ word := ['c','a','t'], x := 20, y := 1, typed := 0, active := false }]
    fallingInput := [], fallingTarget := -1, fallingLives := 3, fallingScore := 0
    fallingSpeed := 0.3, fallingSpawnCD := 5, fallingTicks := 0, fallingGameOver := false
    fallingCharsTyped := 0, turretX := 20, turretStartX := 20, explosions := [], laser := none }

/-- Witness for C4 at `C4model` with word `ab` and the all-zero random
stream. -/
theorem C4_witness :
    edgePadding < C4model.width - (['a','b'].length : Int) - edgePadding ∧
    ((∀ i : Nat, i < 10 →
      edgePadding ≤ attemptCol edgePadding (C4model.width - ['a','b'].length - edgePadding)
        (fun _ => 0) i ∧
      attemptCol edgePadding (C4model.width - ['a','b'].length - edgePadding) (fun _ => 0) i ≤
        C4model.width - ['a','b'].length - edgePadding) ∧
    ((spawnFallingWord C4model ['a','b'] (fun _ => 0)).fallingWords = C4model.fallingWords ∨
      ∃ x : Int,
        (spawnFallingWord C4model ['a','b'] (fun _ => 0)).fallingWords =
          C4model.fallingWords ++ [{ word := ['a','b'], x := x, y := 0, typed := 0, active := false }] ∧
        edgePadding ≤ x ∧ x ≤ C4model.width - ['a','b'].length - edgePadding ∧
        ∀ fw ∈ C4model.fallingWords, fw.y ≤ 3 →
          fw.rightEdge + 1 ≤ x - wingWidth ∨ x + ['a','b'].length + wingWidth + 1 ≤ fw.leftEdge) ∧
    ((List.range 10).find?
        (fun i => !overlapsExisting C4model ['a','b']
          (attemptCol edgePadding (C4model.width - ['a','b'].length - edgePadding) (fun _ => 0) i)) = none →
      spawnFallingWord C4model ['a','b'] (fun _ => 0) = { C4model with fallingSpawnCD := 3 })) :=
  ⟨by decide, C4_placement C4model ['a','b'] (fun _ => 0) (by decide)⟩

-- ## Claim C2

/-- The number of words at or past the boundary row. -/
def breachedCount (ph : Int) (ws : List fallingWord) : Int :=
  ((ws.filter fun fw => breached ph fw).length : Int)

lemma breachedCount_nonneg (ph : Int) (ws : List fallingWord) :
    0 ≤ breachedCount ph ws :=
  Int.natCast_nonneg _

lemma breachedCount_cons_pos {ph : Int} {fw : fallingWord} (rest : List fallingWord)
    (hb : breached ph fw = true) :
    breachedCount ph (fw :: rest) = breachedCount ph rest + 1 := by
  simp [breachedCount, List.filter_cons, hb]

lemma breachedCount_cons_neg {ph : Int} {fw : fallingWord} (rest : List fallingWord)
    (hb : breached ph fw = false) :
    breachedCount ph (fw :: rest) = breachedCount ph rest := by
  simp [breachedCount, List.filter_cons, hb]

/-- When fewer words breach than there are lives (or none breach at all),
the loop runs to completion: the survivors are the non-breached words in
order, and lives drop by the number of breached words. -/
lemma breachLoop_inr (ph : Int) (ws : List fallingWord) :
    ∀ (lives : Int) (input tw : List Char) (acc : List fallingWord),
      (breachedCount ph ws < lives ∨ breachedCount ph ws = 0) →
      ∃ input' tw',
        breachLoop ph ws lives input tw acc =
          .inr (acc ++ ws.filter (fun fw => !breached ph fw),
                lives - breachedCount ph ws, input', tw') := by
  induction ws with
  | nil =>
    intro lives input tw acc _
    exact ⟨input, tw, by simp [breachLoop, breachedCount]⟩
  | cons fw rest ih =>
    intro lives input tw acc hlt
    by_cases hb : breached ph fw
    · have hcount := breachedCount_cons_pos rest hb
      have hnn := breachedCount_nonneg ph rest
      have hlt' : breachedCount ph rest < lives - 1 := by
        rcases hlt with h | h
        · omega
        · omega
      obtain ⟨input', tw', heq⟩ := ih (lives - 1) (if fw.active then [] else input)
        (if fw.active then [] else tw) acc (Or.inl hlt')
      refine ⟨input', tw', ?_⟩
      simp only [breachLoop]
      rw [if_pos hb]
      try dsimp only
      rw [if_neg (by omega)]
      rw [heq]
      have hfil : (fw :: rest).filter (fun fw => !breached ph fw) =
          rest.filter (fun fw => !breached ph fw) := by
        simp [List.filter_cons, hb]
      have harith : lives - 1 - breachedCount ph rest =
          lives - breachedCount ph (fw :: rest) := by omega
      rw [harith, hfil]
    · have hb' : breached ph fw = false := by simpa using hb
      have hcount := breachedCount_cons_neg rest hb'
      obtain ⟨input', tw', heq⟩ := ih lives input tw (acc ++ [fw]) (by omega)
      refine ⟨input', tw', ?_⟩
      simp only [breachLoop]
      rw [if_neg (by simp [hb'])]
      rw [heq]
      have hfil : (fw :: rest).filter (fun fw => !breached ph fw) =
          fw :: rest.filter (fun fw => !breached ph fw) := by
        simp [List.filter_cons, hb']
      rw [hcount, hfil]
      simp

/-- When at least `lives` words breach (and at least one does), the loop takes
the early game-over return. -/
lemma breachLoop_inl (ph : Int) (ws : List fallingWord) :
    ∀ (lives : Int) (input tw : List Char) (acc : List fallingWord),
      1 ≤ breachedCount ph ws → lives ≤ breachedCount ph ws →
      ∃ input', breachLoop ph ws lives input tw acc = .inl input' := by
  induction ws with
  | nil =>
    intro lives input tw acc h1 _
    simp [breachedCount] at h1
  | cons fw rest ih =>
    intro lives input tw acc h1 h2
    by_cases hb : breached ph fw
    · have hcount := breachedCount_cons_pos rest hb
      have hnn := breachedCount_nonneg ph rest
      by_cases hl : lives - 1 ≤ 0
      · refine ⟨if fw.active then [] else input, ?_⟩
        simp only [breachLoop]
        rw [if_pos hb]
        try dsimp only
        rw [if_pos hl]
      · obtain ⟨input', heq⟩ := ih (lives - 1) (if fw.active then [] else input)
          (if fw.active then [] else tw) acc (by omega) (by omega)
        refine ⟨input', ?_⟩
        simp only [breachLoop]
        rw [if_pos hb]
        try dsimp only
        rw [if_neg hl]
        exact heq
    · have hb' : breached ph fw = false := by simpa using hb
      have hcount := breachedCount_cons_neg rest hb'
      obtain ⟨input', heq⟩ := ih lives input tw (acc ++ [fw]) (by omega) (by omega)
      refine ⟨input', ?_⟩
      simp only [breachLoop]
      rw [if_neg (by simp [hb'])]
      exact heq

lemma playHeightOf_ge5 (h : Int) : 5 ≤ playHeightOf h := by
  unfold playHeightOf
  dsimp only
  split <;> omega

lemma retargetStep_fixed (mm : model) (tw : List Char) :
    (retargetStep mm tw).fallingWords = mm.fallingWords ∧
    (retargetStep mm tw).fallingLives = mm.fallingLives ∧
    (retargetStep mm tw).fallingGameOver = mm.fallingGameOver ∧
    (retargetStep mm tw).fallingTicks = mm.fallingTicks := by
  unfold retargetStep
  split
  · exact ⟨rfl, rfl, rfl, rfl⟩
  · split <;> exact ⟨rfl, rfl, rfl, rfl⟩

lemma spawnFallingWord_cases (mm : model) (w : List Char) (f : Nat → Nat) :
    ((spawnFallingWord mm w f).fallingWords = mm.fallingWords ∨
      ∃ x : Int, (spawnFallingWord mm w f).fallingWords =
        mm.fallingWords ++ [{ word := w, x := x, y := 0, typed := 0, active := false }]) ∧
    (spawnFallingWord mm w f).fallingLives = mm.fallingLives ∧
    (spawnFallingWord mm w f).fallingGameOver = mm.fallingGameOver ∧
    (spawnFallingWord mm w f).fallingTicks = mm.fallingTicks := by
  unfold spawnFallingWord
  dsimp only
  split
  · exact ⟨Or.inr ⟨_, rfl⟩, rfl, rfl, rfl⟩
  · exact ⟨Or.inl rfl, rfl, rfl, rfl⟩

lemma spawnStep_cases (mm : model) (w : List Char) (f : Nat → Nat) :
    ((spawnStep mm w f).fallingWords = mm.fallingWords ∨
      ∃ x : Int, (spawnStep mm w f).fallingWords =
        mm.fallingWords ++ [{ word := w, x := x, y := 0, typed := 0, active := false }]) ∧
    (spawnStep mm w f).fallingLives = mm.fallingLives ∧
    (spawnStep mm w f).fallingGameOver = mm.fallingGameOver := by
  unfold spawnStep
  dsimp only
  split
  · obtain ⟨hw, hl, hg, -⟩ :=
      spawnFallingWord_cases { mm with fallingSpawnCD := mm.fallingSpawnCD - 1 } w f
    exact ⟨hw, hl, hg⟩
  · exact ⟨Or.inl rfl, rfl, rfl⟩

lemma goTrunc_zero : goTrunc 0 = 0 := by decide

/-- **C2 (amended).** On a tick from a live (`gameOver = false`) state, with
`bc` the number of words whose integer row is at or past the boundary after
the fall step: (i) when the tick does not end the game, lives drop by exactly
`bc` and every remaining word (survivors, plus any freshly spawned word) is
strictly above the boundary — every breached word was removed; (ii) the tick
sets `gameOver` exactly when `bc ≥ 1` and `bc ≥ lives`; (iii) the game-over
tick returns early: lives is floored at 0 and the word list is left as the
moved list — the breached words are *not* removed on that final tick; and
(iv) once `gameOver` is set, a tick message leaves the model untouched, so
exactly one transition sets the flag and nothing mutates afterwards. -/
theorem C2_boundary_lives (m : model) (w : List Char) (f : Nat → Nat)
    (hgo : m.fallingGameOver = false) :
    ((fallingTick m w f).fallingGameOver = false →
      (fallingTick m w f).fallingLives =
        m.fallingLives - breachedCount (playHeightOf m.height) (movedWords m) ∧
      ∀ fw ∈ (fallingTick m w f).fallingWords,
        goTrunc fw.y < playHeightOf m.height) ∧
    ((fallingTick m w f).fallingGameOver = true ↔
      1 ≤ breachedCount (playHeightOf m.height) (movedWords m) ∧
      m.fallingLives ≤ breachedCount (playHeightOf m.height) (movedWords m)) ∧
    ((fallingTick m w f).fallingGameOver = true →
      (fallingTick m w f).fallingLives = 0 ∧
      (fallingTick m w f).fallingWords = movedWords m) ∧
    (∀ m' : model, m'.fallingGameOver = true → updateFallingTickMsg m' w f = m') := by
  have hnn := breachedCount_nonneg (playHeightOf m.height) (movedWords m)
  have hlast : ∀ m' : model, m'.fallingGameOver = true → updateFallingTickMsg m' w f = m' := by
    intro m' hm'
    unfold updateFallingTickMsg
    rw [if_pos hm']
  by_cases hcase :
      1 ≤ breachedCount (playHeightOf m.height) (movedWords m) ∧
      m.fallingLives ≤ breachedCount (playHeightOf m.height) (movedWords m)
  · -- the game-over tick
    obtain ⟨input', heq⟩ := breachLoop_inl (playHeightOf m.height) (movedWords m)
      m.fallingLives m.fallingInput (targetWordOf (tickAdvance m)) [] hcase.1 hcase.2
    have hres : fallingTick m w f =
        calculateFallingResults
          { tickAdvance m with
            fallingLives := 0, fallingGameOver := true, fallingInput := input' } := by
      unfold fallingTick
      dsimp only
      rw [heq]
    rw [hres]
    refine ⟨fun hfalse => absurd hfalse (by simp [calculateFallingResults]), ?_, ?_, hlast⟩
    · exact iff_of_true rfl hcase
    · intro _
      exact ⟨rfl, rfl⟩
  · -- the ordinary tick
    have hor : breachedCount (playHeightOf m.height) (movedWords m) < m.fallingLives ∨
        breachedCount (playHeightOf m.height) (movedWords m) = 0 := by
      rcases not_and_or.mp hcase with h | h
      · right; omega
      · left; omega
    obtain ⟨input', tw', heq⟩ := breachLoop_inr (playHeightOf m.height) (movedWords m)
      m.fallingLives m.fallingInput (targetWordOf (tickAdvance m)) [] hor
    have hres : fallingTick m w f =
        (let m1 := { tickAdvance m with
            fallingWords :=
              [] ++ (movedWords m).filter (fun fw => !breached (playHeightOf m.height) fw)
            fallingLives :=
              m.fallingLives - breachedCount (playHeightOf m.height) (movedWords m)
            fallingInput := input' }
          let m2 := retargetStep m1 tw'
          let m3 := spawnStep m2 w f
          { m3 with fallingSpeed := fallingSpeedForTick m3.fallingTicks }) := by
      unfold fallingTick
      dsimp only
      rw [heq]
    set m1 : model := { tickAdvance m with
        fallingWords :=
          [] ++ (movedWords m).filter (fun fw => !breached (playHeightOf m.height) fw)
        fallingLives := m.fallingLives - breachedCount (playHeightOf m.height) (movedWords m)
        fallingInput := input' } with hm1
    obtain ⟨hrw, hrl, hrg, -⟩ := retargetStep_fixed m1 tw'
    obtain ⟨hsw, hsl, hsg⟩ := spawnStep_cases (retargetStep m1 tw') w f
    have hgo' : (fallingTick m w f).fallingGameOver = false := by
      rw [hres]
      dsimp only
      rw [hsg, hrg]
      exact hgo
    have hlives : (fallingTick m w f).fallingLives =
        m.fallingLives - breachedCount (playHeightOf m.height) (movedWords m) := by
      rw [hres]
      dsimp only
      rw [hsl, hrl]
    refine ⟨fun _ => ⟨hlives, ?_⟩, ?_, ?_, hlast⟩
    · -- every remaining word is above the boundary
      intro fw hfw
      have hfw' : fw ∈ (spawnStep (retargetStep m1 tw') w f).fallingWords := by
        rw [hres] at hfw
        exact hfw
      rcases hsw with hsame | ⟨x, happ⟩
      · rw [hsame, hrw] at hfw'
        have : fw ∈ (movedWords m).filter (fun fw => !breached (playHeightOf m.height) fw) := by
          simpa using hfw'
        have hmem := List.of_mem_filter this
        simp only [Bool.not_eq_true', breached, decide_eq_false_iff_not, not_le] at hmem
        exact hmem
      · rw [happ, hrw] at hfw'
        rcases List.mem_append.mp hfw' with hin | hnew
        · have : fw ∈ (movedWords m).filter (fun fw => !breached (playHeightOf m.height) fw) := by
            simpa using hin
          have hmem := List.of_mem_filter this
          simp only [Bool.not_eq_true', breached, decide_eq_false_iff_not, not_le] at hmem
          exact hmem
        · have hfweq : fw = { word := w, x := x, y := 0, typed := 0, active := false } := by
            simpa using hnew
          rw [hfweq]
        -- goTrunc 0 = 0 < playHeight
          have h5 := playHeightOf_ge5 m.height
          simp only [goTrunc_zero]
          omega
    · rw [hgo']
      constructor
      · intro h
        exact absurd h (by simp)
      · intro h
        exact absurd h hcase
    · intro habs
      rw [hgo'] at habs
      exact absurd habs (by simp)

/-- A live state about to lose its last life: one active breaching word,
non-empty buffer. -/
def gameOverTickModel : model :=
  { state := .stateFalling, width := 40, height := 10, correctWords := 0
    fallingWords := [{ word := ['w'], x := 10, y := 4.8, typed := 1, active := true }]
    fallingInput := ['w'], fallingTarget := 0, fallingLives := 1, fallingScore := 0
    fallingSpeed := 0.3, fallingSpawnCD := 5, fallingTicks := 0, fallingGameOver := false
    fallingCharsTyped := 0, turretX := 20, turretStartX := 20, explosions := [], laser := none }

/-- **C2 as stated is false on the game-over tick**: the word falls to row
`5.1` (integer row 5, at the boundary `playHeight = 5`), the tick decrements
lives to 0 and sets `gameOver` — but returns early *without removing the
breached word from the live word set*. -/
theorem C2_counterexample :
    (fallingTick gameOverTickModel ['q'] (fun _ => 0)).fallingGameOver = true ∧
    (fallingTick gameOverTickModel ['q'] (fun _ => 0)).fallingWords =
      [{ word := ['w'], x := 10, y := 5.1, typed := 1, active := true }] ∧
    playHeightOf gameOverTickModel.height ≤ goTrunc (5.1 : ℚ) := by
  decide

/-- Witness for C2 at `congestedModel` (a live state; its single word does not
reach the boundary this tick). -/
theorem C2_witness :
    congestedModel.fallingGameOver = false ∧
    (((fallingTick congestedModel ['a','b'] (fun _ => 0)).fallingGameOver = false →
      (fallingTick congestedModel ['a','b'] (fun _ => 0)).fallingLives =
        congestedModel.fallingLives -
          breachedCount (playHeightOf congestedModel.height) (movedWords congestedModel) ∧
      ∀ fw ∈ (fallingTick congestedModel ['a','b'] (fun _ => 0)).fallingWords,
        goTrunc fw.y < playHeightOf congestedModel.height) ∧
    ((fallingTick congestedModel ['a','b'] (fun _ => 0)).fallingGameOver = true ↔
      1 ≤ breachedCount (playHeightOf congestedModel.height) (movedWords congestedModel) ∧
      congestedModel.fallingLives ≤
        breachedCount (playHeightOf congestedModel.height) (movedWords congestedModel)) ∧
    ((fallingTick congestedModel ['a','b'] (fun _ => 0)).fallingGameOver = true →
      (fallingTick congestedModel ['a','b'] (fun _ => 0)).fallingLives = 0 ∧
      (fallingTick congestedModel ['a','b'] (fun _ => 0)).fallingWords =
        movedWords congestedModel) ∧
    (∀ m' : model, m'.fallingGameOver = true →
      updateFallingTickMsg m' ['a','b'] (fun _ => 0) = m')) :=
  ⟨rfl, C2_boundary_lives congestedModel ['a','b'] (fun _ => 0) rfl⟩

-- ## Shared keystroke lemmas (claims C9, C10, C6)

lemma modifyWord_length (ws : List fallingWord) (i : Int) (f : fallingWord → fallingWord) :
    (modifyWord ws i f).length = ws.length := by
  unfold modifyWord
  split
  · exact List.length_set ws _ _
  · rfl

lemma modifyWord_getElem_self (ws : List fallingWord) (i : Int) (f : fallingWord → fallingWord)
    (h0 : 0 ≤ i) (hl : i.toNat < ws.length) :
    (modifyWord ws i f)[i.toNat]? = some (f (ws.get ⟨i.toNat, hl⟩)) := by
  unfold modifyWord
  rw [dif_pos ⟨h0, hl⟩]
  exact List.getElem?_set_self hl

lemma mem_modifyWord {ws : List fallingWord} {i : Int} {f : fallingWord → fallingWord}
    {x : fallingWord} (hx : x ∈ modifyWord ws i f) :
    x ∈ ws ∨ ∃ fw ∈ ws, x = f fw := by
  unfold modifyWord at hx
  split at hx
  · next h =>
    rcases List.mem_or_eq_of_mem_set hx with hmem | heq
    · exact Or.inl hmem
    · exact Or.inr ⟨ws.get ⟨i.toNat, h.2⟩, List.get_mem ws _ _, heq⟩
  · exact Or.inl hx

/-- `turretStage` only moves the turret. -/
lemma turretStage_core (mm : model) :
    (turretStage mm).fallingWords = mm.fallingWords ∧
    (turretStage mm).fallingTarget = mm.fallingTarget ∧
    (turretStage mm).fallingInput = mm.fallingInput ∧
    (turretStage mm).fallingScore = mm.fallingScore := by
  unfold turretStage
  split
  · dsimp only
    split
    · exact ⟨rfl, rfl, rfl, rfl⟩
    · exact ⟨rfl, rfl, rfl, rfl⟩
  · exact ⟨rfl, rfl, rfl, rfl⟩

/-- The completion check either leaves the model alone, or destroys the
committed word: the target index becomes `-1`, the buffer is cleared, and the
destroyed word was a live word whose text equals the whole buffer. -/
lemma runeDestroyCheck_or (mm : model) :
    runeDestroyCheck mm = mm ∨
    ((runeDestroyCheck mm).fallingTarget = -1 ∧
     (runeDestroyCheck mm).fallingInput = [] ∧
     ∃ fw ∈ mm.fallingWords, mm.fallingInput = fw.word) := by
  unfold runeDestroyCheck
  split
  · next h =>
    dsimp only
    split
    · next heq => exact Or.inr ⟨rfl, rfl, mm.fallingWords.get _, List.get_mem _ _ _, heq⟩
    · exact Or.inl rfl
  · exact Or.inl rfl

lemma runeSelectStage_of_no_target (m : model) (c : Char) (ht : m.fallingTarget = -1) :
    runeSelectStage m c =
      (if 0 ≤ findTarget { m with fallingInput := m.fallingInput ++ [c] } c then
        { m with
          fallingInput := m.fallingInput ++ [c]
          fallingTarget := findTarget { m with fallingInput := m.fallingInput ++ [c] } c
          fallingWords := modifyWord m.fallingWords
            (findTarget { m with fallingInput := m.fallingInput ++ [c] } c)
            (fun fw => { fw with active := true, typed := 1 })
          turretStartX := m.turretX }
      else
        { m with
          fallingInput := m.fallingInput ++ [c]
          fallingTarget := findTarget { m with fallingInput := m.fallingInput ++ [c] } c }) := by
  unfold runeSelectStage
  dsimp only
  rw [if_pos ht]

lemma runeSelectStage_of_target (m : model) (c : Char) (ht : ¬m.fallingTarget = -1)
    (hl : m.fallingTarget < (m.fallingWords.length : Int)) :
    runeSelectStage m c =
      { m with
        fallingInput := m.fallingInput ++ [c]
        fallingWords := modifyWord m.fallingWords m.fallingTarget
          (fun fw => { fw with typed := (m.fallingInput ++ [c]).length }) } := by
  unfold runeSelectStage
  dsimp only
  rw [if_neg ht, if_pos hl]

lemma runeSelectStage_of_stale_target (m : model) (c : Char)
    (ht : ¬m.fallingTarget = -1) (hl : ¬m.fallingTarget < (m.fallingWords.length : Int)) :
    runeSelectStage m c = { m with fallingInput := m.fallingInput ++ [c] } := by
  unfold runeSelectStage
  dsimp only
  rw [if_neg ht, if_neg hl]

lemma backspace_valid_eq (m : model) (h0 : 0 ≤ m.fallingTarget)
    (hl : m.fallingTarget < (m.fallingWords.length : Int)) (hne : m.fallingInput ≠ []) :
    handleFallingKey m .backspace =
      (if (m.fallingInput.dropLast.length = 0 ∧ 0 ≤ m.fallingTarget ∧
            m.fallingTarget <
              ((modifyWord m.fallingWords m.fallingTarget
                (fun fw => { fw with typed := m.fallingInput.dropLast.length })).length : Int)) then
        { m with
          fallingInput := m.fallingInput.dropLast
          fallingWords := modifyWord
            (modifyWord m.fallingWords m.fallingTarget
              (fun fw => { fw with typed := m.fallingInput.dropLast.length }))
            m.fallingTarget (fun fw => { fw with active := false, typed := 0 })
          fallingTarget := -1 }
      else
        { m with
          fallingInput := m.fallingInput.dropLast
          fallingWords := modifyWord m.fallingWords m.fallingTarget
            (fun fw => { fw with typed := m.fallingInput.dropLast.length }) }) := by
  have hpos : m.fallingInput.length > 0 := List.length_pos.mpr hne
  simp only [handleFallingKey]
  rw [if_pos hpos]
  try dsimp only
  rw [if_pos (show 0 ≤ m.fallingTarget ∧ m.fallingTarget < (m.fallingWords.length : Int) from
    ⟨h0, hl⟩)]

/-- `findTargetGo` returns either the running best index or the position of
some inactive word of the scanned list (offset by the running index `i`). -/
lemma findTargetGo_spec (c : Char) (ws : List fallingWord) :
    ∀ (i : Nat) (bestIdx : Int) (bestY : ℚ),
      findTargetGo c ws i bestIdx bestY = bestIdx ∨
      ∃ j : Nat, findTargetGo c ws i bestIdx bestY = ((i + j : Nat) : Int) ∧
        ∃ fw, ws[j]? = some fw ∧ fw.active = false := by
  induction ws with
  | nil => intro i b y; exact Or.inl rfl
  | cons fw rest ih =>
    intro i b y
    by_cases ha : fw.active
    · rw [show findTargetGo c (fw :: rest) i b y = findTargetGo c rest (i + 1) b y from by
        simp only [findTargetGo]; rw [if_pos ha]]
      rcases ih (i + 1) b y with h | ⟨j, hj, fw', hfw', hact⟩
      · exact Or.inl h
      · refine Or.inr ⟨j + 1, ?_, fw', by simpa using hfw', hact⟩
        rw [hj]
        congr 1
        omega
    · have ha' : fw.active = false := by simpa using ha
      by_cases hm : 0 < fw.word.length ∧ fw.word.head? = some c ∧ y < fw.y
      · rw [show findTargetGo c (fw :: rest) i b y = findTargetGo c rest (i + 1) (i : Int) fw.y
            from by simp only [findTargetGo]; rw [if_neg ha, if_pos hm]]
        rcases ih (i + 1) (i : Int) fw.y with h | ⟨j, hj, fw', hfw', hact⟩
        · exact Or.inr ⟨0, by simp [h], fw, by simp, ha'⟩
        · refine Or.inr ⟨j + 1, ?_, fw', by simpa using hfw', hact⟩
          rw [hj]
          congr 1
          omega
      · rw [show findTargetGo c (fw :: rest) i b y = findTargetGo c rest (i + 1) b y from by
          simp only [findTargetGo]; rw [if_neg ha, if_neg hm]]
        rcases ih (i + 1) b y with h | ⟨j, hj, fw', hfw', hact⟩
        · exact Or.inl h
        · refine Or.inr ⟨j + 1, ?_, fw', by simpa using hfw', hact⟩
          rw [hj]
          congr 1
          omega

/-- A nonnegative result of `findTarget` is the index of an inactive live
word. -/
lemma findTarget_spec (m : model) (c : Char) (h0 : 0 ≤ findTarget m c) :
    ∃ j : Nat, findTarget m c = (j : Int) ∧
      ∃ fw, m.fallingWords[j]? = some fw ∧ fw.active = false := by
  rcases findTargetGo_spec c m.fallingWords 0 (-1) (-1) with h | ⟨j, hj, fw, hfw, hact⟩
  · rw [show findTargetGo c m.fallingWords 0 (-1) (-1) = findTarget m c from rfl] at h
    omega
  · exact ⟨j, by simpa using hj, fw, hfw, hact⟩

-- ## Claim C9

/-- When a valid target index is committed, its word's `typed` field equals
the input buffer length. -/
def typedMatchesBuffer (m : model) : Prop :=
  0 ≤ m.fallingTarget →
  ∀ fw, m.fallingWords[m.fallingTarget.toNat]? = some fw →
    fw.typed = m.fallingInput.length

/-- The spec's reading of `typed` — the number of leading characters of the
word matched by the characters typed toward it. (This definition follows the
spec's words, not the code; the code stores the buffer length instead, and
the counterexample separates the two.) -/
def matchedLeadCount : List Char → List Char → Nat
  | w :: ws, b :: bs => if w = b then matchedLeadCount ws bs + 1 else 0
  | _, _ => 0

/-- **C9 (amended).** The `typed` field of the committed target tracks the
*length of the input buffer* — the number of characters typed toward the
word, whether or not they match — not the count of correctly matched leading
characters. Concretely: (i) a keystroke from a state with no target and an
empty buffer leaves any newly committed target with `typed` equal to the
buffer length; (ii) a keystroke with a validly committed target sets its
`typed` to the buffer length; (iii) a backspace on a non-empty buffer with a
validly committed target does the same. -/
theorem C9_typed_counts_buffer (m : model) (c : Char) :
    (m.fallingTarget = -1 → m.fallingInput = [] →
      typedMatchesBuffer (handleFallingKey m (.rune c))) ∧
    (0 ≤ m.fallingTarget → m.fallingTarget < (m.fallingWords.length : Int) →
      typedMatchesBuffer (handleFallingKey m (.rune c))) ∧
    (0 ≤ m.fallingTarget → m.fallingTarget < (m.fallingWords.length : Int) →
      m.fallingInput ≠ [] → typedMatchesBuffer (handleFallingKey m .backspace)) := by
  have hkey : handleFallingKey m (.rune c) =
      runeDestroyCheck (turretStage (runeSelectStage m c)) := rfl
  obtain ⟨tws, twt, twi, -⟩ := turretStage_core (runeSelectStage m c)
  refine ⟨?_, ?_, ?_⟩
  · -- (i) selection from an empty buffer
    intro ht hi
    rcases runeDestroyCheck_or (turretStage (runeSelectStage m c)) with hsame | ⟨hneg, -, -⟩
    · rw [hkey, hsame]
      intro h0 fw hfw
      rw [twt] at h0
      rw [tws, twt] at hfw
      rw [twi]
      rw [runeSelectStage_of_no_target m c ht] at h0 hfw ⊢
      by_cases hsel : 0 ≤ findTarget { m with fallingInput := m.fallingInput ++ [c] } c
      · rw [if_pos hsel] at h0 hfw ⊢
        obtain ⟨j, hj, fw', hfw', -⟩ :=
          findTarget_spec { m with fallingInput := m.fallingInput ++ [c] } c hsel
        have hjlen : j < m.fallingWords.length := by
          have := List.getElem?_eq_some_iff.mp (by simpa using hfw')
          exact this.1
        have hget : (modifyWord m.fallingWords
            (findTarget { m with fallingInput := m.fallingInput ++ [c] } c)
            (fun fw => { fw with active := true, typed := 1 }))[(findTarget { m with
              fallingInput := m.fallingInput ++ [c] } c).toNat]? =
            some { m.fallingWords.get ⟨j, hjlen⟩ with active := true, typed := 1 } := by
          rw [hj]
          have := modifyWord_getElem_self m.fallingWords (j : Int)
            (fun fw => { fw with active := true, typed := 1 }) (by omega) (by simpa using hjlen)
          simpa using this
        rw [show ({ m with
            fallingInput := m.fallingInput ++ [c]
            fallingTarget := findTarget { m with fallingInput := m.fallingInput ++ [c] } c
            fallingWords := modifyWord m.fallingWords
              (findTarget { m with fallingInput := m.fallingInput ++ [c] } c)
              (fun fw => { fw with active := true, typed := 1 })
            turretStartX := m.turretX } : model).fallingWords = modifyWord m.fallingWords
              (findTarget { m with fallingInput := m.fallingInput ++ [c] } c)
              (fun fw => { fw with active := true, typed := 1 }) from rfl] at hfw
        rw [hget] at hfw
        obtain rfl := Option.some.inj hfw
        simp [hi]
      · rw [if_neg hsel] at h0
        exact absurd h0 hsel
    · rw [hkey]
      intro h0 _ _
      rw [hneg] at h0
      omega
  · -- (ii) character keystroke with a valid committed target
    intro h0 hl
    rcases runeDestroyCheck_or (turretStage (runeSelectStage m c)) with hsame | ⟨hneg, -, -⟩
    · rw [hkey, hsame]
      intro h0' fw hfw
      rw [tws, twt] at hfw
      rw [twi]
      rw [runeSelectStage_of_target m c (by omega) hl] at hfw ⊢
      have hT : m.fallingTarget.toNat < m.fallingWords.length := by omega
      have hget := modifyWord_getElem_self m.fallingWords m.fallingTarget
        (fun fw => { fw with typed := (m.fallingInput ++ [c]).length }) h0 hT
      rw [show ({ m with
          fallingInput := m.fallingInput ++ [c]
          fallingWords := modifyWord m.fallingWords m.fallingTarget
            (fun fw => { fw with typed := (m.fallingInput ++ [c]).length }) } : model).fallingWords
          = modifyWord m.fallingWords m.fallingTarget
            (fun fw => { fw with typed := (m.fallingInput ++ [c]).length }) from rfl] at hfw
      rw [hget] at hfw
      obtain rfl := Option.some.inj hfw
      rfl
    · rw [hkey]
      intro h0' _ _
      rw [hneg] at h0'
      omega
  · -- (iii) backspace with a valid committed target and non-empty buffer
    intro h0 hl hne
    rw [backspace_valid_eq m h0 hl hne]
    by_cases hdone : (m.fallingInput.dropLast.length = 0 ∧ 0 ≤ m.fallingTarget ∧
        m.fallingTarget <
          ((modifyWord m.fallingWords m.fallingTarget
            (fun fw => { fw with typed := m.fallingInput.dropLast.length })).length : Int))
    · rw [if_pos hdone]
      intro h0' _ _
      simp at h0'
    · rw [if_neg hdone]
      intro h0' fw hfw
      have hT : m.fallingTarget.toNat < m.fallingWords.length := by omega
      have hget := modifyWord_getElem_self m.fallingWords m.fallingTarget
        (fun fw => { fw with typed := m.fallingInput.dropLast.length }) h0 hT
      rw [show ({ m with
          fallingInput := m.fallingInput.dropLast
          fallingWords := modifyWord m.fallingWords m.fallingTarget
            (fun fw => { fw with typed := m.fallingInput.dropLast.length }) } : model).fallingWords
          = modifyWord m.fallingWords m.fallingTarget
            (fun fw => { fw with typed := m.fallingInput.dropLast.length }) from rfl] at hfw
      rw [hget] at hfw
      obtain rfl := Option.some.inj hfw
      rfl

/-- State for the C9 counterexample: one word `ab`, nothing typed yet. -/
def C9model : model :=
  { state := .stateFalling, width := 40, height := 20, correctWords := 0
    fallingWords := [{ word := ['a','b'], x := 10, y := 2, typed := 0, active := false }]
    fallingInput := [], fallingTarget := -1, fallingLives := 3, fallingScore := 0
    fallingSpeed := 0.3, fallingSpawnCD := 5, fallingTicks := 0, fallingGameOver := false
    fallingCharsTyped := 0, turretX := 20, turretStartX := 20, explosions := [], laser := none }

/-- **C9 as stated is false**: typing `a` (targets `ab`) and then the wrong
character `x` leaves `typed = 2`, while only 1 leading character of the word
is matched by the buffer `ax`. -/
theorem C9_counterexample :
    (handleFallingKey (handleFallingKey C9model (.rune 'a')) (.rune 'x')).fallingWords =
      [{ word := ['a','b'], x := 10, y := 2, typed := 2, active := true }] ∧
    (handleFallingKey (handleFallingKey C9model (.rune 'a')) (.rune 'x')).fallingInput =
      ['a','x'] ∧
    matchedLeadCount ['a','b'] ['a','x'] = 1 ∧ (2 : Nat) ≠ 1 := by
  decide

/-- Witness for C9: part (i) applied to `C9model` and the keystroke `a`. -/
theorem C9_witness : typedMatchesBuffer (handleFallingKey C9model (.rune 'a')) :=
  (C9_typed_counts_buffer C9model 'a').1 rfl rfl

-- ## Claim C10

/-- `s` is an initial segment of `t`. -/
def startsList (s t : List Char) : Prop := t.take s.length = s

instance (s t : List Char) : Decidable (startsList s t) :=
  inferInstanceAs (Decidable (t.take s.length = s))

lemma startsList_append (s r : List Char) : startsList s (s ++ r) :=
  List.take_left s r

lemma startsList_weaken {s e t : List Char} (h : startsList (s ++ e) t) : startsList s t := by
  unfold startsList at h ⊢
  have hlen : s.length ≤ (s ++ e).length := by simp
  calc t.take s.length = (t.take (s ++ e).length).take s.length := by
        rw [List.take_take, min_eq_left hlen]
    _ = (s ++ e).take s.length := by rw [h]
    _ = s := List.take_left s e

lemma startsList_trans {a b t : List Char} (h1 : startsList a b) (h2 : startsList b t) :
    startsList a t := by
  unfold startsList at h1 h2 ⊢
  have hlen : a.length ≤ b.length := by
    conv_lhs => rw [← h1]
    rw [List.length_take]
    exact min_le_right _ _
  calc t.take a.length = (t.take b.length).take a.length := by
        rw [List.take_take, min_eq_left hlen]
    _ = b.take a.length := by rw [h2]
    _ = a := h1

/-- `runRunes m cs` feeds the character keystrokes `cs` to the falling-mode
key handler in order. -/
def runRunes (m : model) : List Char → model
  | [] => m
  | c :: cs => runRunes (handleFallingKey m (.rune c)) cs

/-- The select/typed stage appends the keystroke to the buffer and can change
`typed`/`active` flags of live words but never their texts, their number, or
the score. -/
lemma runeSelectStage_words (m : model) (c : Char) :
    (runeSelectStage m c).fallingInput = m.fallingInput ++ [c] ∧
    (runeSelectStage m c).fallingScore = m.fallingScore ∧
    (runeSelectStage m c).fallingWords.length = m.fallingWords.length ∧
    ∀ x ∈ (runeSelectStage m c).fallingWords, ∃ fw ∈ m.fallingWords, x.word = fw.word := by
  unfold runeSelectStage
  dsimp only
  split
  · split
    · refine ⟨rfl, rfl, ?_, ?_⟩
      · dsimp only
        exact modifyWord_length _ _ _
      · intro x hx
        dsimp only at hx
        rcases mem_modifyWord hx with hmem | ⟨fw, hfw, rfl⟩
        · exact ⟨x, hmem, rfl⟩
        · exact ⟨fw, hfw, rfl⟩
    · exact ⟨rfl, rfl, rfl, fun x hx => ⟨x, hx, rfl⟩⟩
  · split
    · refine ⟨rfl, rfl, ?_, ?_⟩
      · dsimp only
        exact modifyWord_length _ _ _
      · intro x hx
        dsimp only at hx
        rcases mem_modifyWord hx with hmem | ⟨fw, hfw, rfl⟩
        · exact ⟨x, hmem, rfl⟩
        · exact ⟨fw, hfw, rfl⟩
    · exact ⟨rfl, rfl, rfl, fun x hx => ⟨x, hx, rfl⟩⟩

/-- One character keystroke from a state in which no live word starts with
the buffer `s`: the buffer grows to `s ++ [c]`, and nothing is destroyed
(the score and the number and texts of live words are unchanged) — because
completion compares the whole buffer, and a destroyed word's text would have
to start with `s`. -/
lemma rune_step_stale (m : model) (c : Char) (s : List Char)
    (hs : m.fallingInput = s)
    (hw : ∀ fw ∈ m.fallingWords, ¬ startsList s fw.word) :
    (handleFallingKey m (.rune c)).fallingInput = s ++ [c] ∧
    (handleFallingKey m (.rune c)).fallingScore = m.fallingScore ∧
    (handleFallingKey m (.rune c)).fallingWords.length = m.fallingWords.length ∧
    ∀ x ∈ (handleFallingKey m (.rune c)).fallingWords,
      ∃ fw ∈ m.fallingWords, x.word = fw.word := by
  have hkey : handleFallingKey m (.rune c) =
      runeDestroyCheck (turretStage (runeSelectStage m c)) := rfl
  obtain ⟨hi, hsc, hlen, hmem⟩ := runeSelectStage_words m c
  obtain ⟨tws, twt, twi, twsc⟩ := turretStage_core (runeSelectStage m c)
  rcases runeDestroyCheck_or (turretStage (runeSelectStage m c)) with hsame | ⟨-, -, fw, hfw, hfeq⟩
  · rw [hkey, hsame]
    refine ⟨by rw [twi, hi, hs], by rw [twsc, hsc], by rw [tws, hlen], ?_⟩
    intro x hx
    rw [tws] at hx
    exact hmem x hx
  · exfalso
    rw [tws] at hfw
    obtain ⟨fw', hfw', hword⟩ := hmem fw hfw
    rw [twi, hi, hs] at hfeq
    apply hw fw' hfw'
    rw [← hword, ← hfeq]
    exact startsList_append s [c]

/-- **C10 (amended).** Completion compares the entire input buffer against
the target word, so from any state in which no live word's text starts with
the current buffer, no sequence of further character keystrokes alone can
complete any word: the score and the live word count never change, and the
stale buffer remains an initial segment of the buffer. (As stated the claim
is false: when the targeted word's text *does* start with the stale buffer,
further keystrokes can complete it — see the counterexample.) -/
theorem C10_stale_input_blocks_completion (cs : List Char) :
    ∀ m : model, (∀ fw ∈ m.fallingWords, ¬ startsList m.fallingInput fw.word) →
      (runRunes m cs).fallingScore = m.fallingScore ∧
      (runRunes m cs).fallingWords.length = m.fallingWords.length ∧
      startsList m.fallingInput (runRunes m cs).fallingInput := by
  induction cs with
  | nil =>
    intro m _
    exact ⟨rfl, rfl, by unfold startsList; exact List.take_length m.fallingInput⟩
  | cons c cs ih =>
    intro m hw
    obtain ⟨hi, hsc, hlen, hmem⟩ := rune_step_stale m c m.fallingInput rfl hw
    have hw' : ∀ fw ∈ (handleFallingKey m (.rune c)).fallingWords,
        ¬ startsList (handleFallingKey m (.rune c)).fallingInput fw.word := by
      intro fw hfw hstart
      obtain ⟨fw', hfw', hword⟩ := hmem fw hfw
      apply hw fw' hfw'
      rw [← hword]
      rw [hi] at hstart
      exact startsList_weaken hstart
    obtain ⟨ih1, ih2, ih3⟩ := ih (handleFallingKey m (.rune c)) hw'
    have hrun : runRunes m (c :: cs) = runRunes (handleFallingKey m (.rune c)) cs := rfl
    refine ⟨by rw [hrun, ih1, hsc], by rw [hrun, ih2, hlen], ?_⟩
    rw [hrun]
    refine startsList_trans ?_ ih3
    rw [hi]
    exact startsList_append _ _

/-- State for the C10 counterexample: no target, the stale buffer `a` is in
the input, and the live word `aab` *starts with* the stale buffer. -/
def C10model : model :=
  { state := .stateFalling, width := 40, height := 20, correctWords := 0
    fallingWords := [{ word := ['a','a','b'], x := 10, y := 2, typed := 0, active := false }]
    fallingInput := ['a'], fallingTarget := -1, fallingLives := 3, fallingScore := 0
    fallingSpeed := 0.3, fallingSpawnCD := 5, fallingTicks := 0, fallingGameOver := false
    fallingCharsTyped := 0, turretX := 20, turretStartX := 20, explosions := [], laser := none }

/-- **C10 as stated is false**: from the no-target state with stale buffer
`a`, pressing `a` targets the word `aab`, and pressing `b` completes it —
two character keystrokes, no backspace: the score increments and the word is
removed. -/
theorem C10_counterexample :
    C10model.fallingTarget = -1 ∧ C10model.fallingInput ≠ [] ∧
    (handleFallingKey C10model (.rune 'a')).fallingTarget = 0 ∧
    (runRunes C10model ['a','b']).fallingScore = C10model.fallingScore + 1 ∧
    (runRunes C10model ['a','b']).fallingWords = [] := by
  decide

/-- State for the C10 witness: stale buffer `x`, live word `cd` does not
start with it. -/
def C10wModel : model :=
  { state := .stateFalling, width := 40, height := 20, correctWords := 0
    fallingWords := [{ word := ['c','d'], x := 10, y := 2, typed := 0, active := false }]
    fallingInput := ['x'], fallingTarget := -1, fallingLives := 3, fallingScore := 0
    fallingSpeed := 0.3, fallingSpawnCD := 5, fallingTicks := 0, fallingGameOver := false
    fallingCharsTyped := 0, turretX := 20, turretStartX := 20, explosions := [], laser := none }

/-- Witness for C10: typing `c` then `d` on `C10wModel` completes nothing. -/
theorem C10_witness :
    (∀ fw ∈ C10wModel.fallingWords, ¬ startsList C10wModel.fallingInput fw.word) ∧
    ((runRunes C10wModel ['c','d']).fallingScore = C10wModel.fallingScore ∧
     (runRunes C10wModel ['c','d']).fallingWords.length = C10wModel.fallingWords.length ∧
     startsList C10wModel.fallingInput (runRunes C10wModel ['c','d']).fallingInput) :=
  ⟨by decide, C10_stale_input_blocks_completion ['c','d'] C10wModel (by decide)⟩

-- ## Claim C6

/-- Every live word has non-empty text (words come from the corpora, which
contain no empty token; an empty text would collide with the `""` sentinel
`fallingTick` uses for "no remembered target"). -/
def wordsNonempty (m : model) : Prop := ∀ fw ∈ m.fallingWords, fw.word ≠ []

/-- Any active word's index is the committed target index (so at most one
word is ever active, and `active` never survives without its target). -/
def activeImpliesTarget (m : model) : Prop :=
  ∀ (j : Nat) (fw : fallingWord), m.fallingWords[j]? = some fw →
    fw.active = true → m.fallingTarget = (j : Int)

/-- The claimed invariant: no word is active while the input buffer is
empty. -/
def noActiveOnEmptyInput (m : model) : Prop :=
  m.fallingInput = [] → ∀ fw ∈ m.fallingWords, fw.active = false

/-- The falling-mode state invariant. -/
def fallingInv (m : model) : Prop :=
  wordsNonempty m ∧ activeImpliesTarget m ∧ noActiveOnEmptyInput m

lemma fallingInv_of_eq {m1 m2 : model} (hw : m2.fallingWords = m1.fallingWords)
    (ht : m2.fallingTarget = m1.fallingTarget) (hi : m2.fallingInput = m1.fallingInput)
    (h : fallingInv m1) : fallingInv m2 := by
  obtain ⟨h1, h2, h3⟩ := h
  refine ⟨?_, ?_, ?_⟩
  · intro fw hfw
    rw [hw] at hfw
    exact h1 fw hfw
  · intro j fw hfw ha
    rw [hw] at hfw
    rw [ht]
    exact h2 j fw hfw ha
  · intro hin fw hfw
    rw [hi] at hin
    rw [hw] at hfw
    exact h3 hin fw hfw

lemma modifyWord_oob {ws : List fallingWord} {i : Int} {f : fallingWord → fallingWord}
    (hob : ¬(0 ≤ i ∧ i.toNat < ws.length)) : modifyWord ws i f = ws :=
  dif_neg hob

lemma modifyWord_getElem_cases (ws : List fallingWord) (i : Int) (f : fallingWord → fallingWord)
    (j : Nat) (fw : fallingWord) (h : (modifyWord ws i f)[j]? = some fw) :
    ws[j]? = some fw ∨
    (0 ≤ i ∧ j = i.toNat ∧ ∃ fw', ws[j]? = some fw' ∧ fw = f fw') := by
  unfold modifyWord at h
  split at h
  · next hc =>
    by_cases hj : j = i.toNat
    · subst hj
      rw [List.getElem?_set_self hc.2] at h
      refine Or.inr ⟨hc.1, rfl, ws.get ⟨i.toNat, hc.2⟩, ?_, (Option.some.inj h).symm⟩
      rw [List.getElem?_eq_some_iff]
      exact ⟨hc.2, rfl⟩
    · rw [List.getElem?_set_ne (fun hh => hj hh.symm)] at h
      exact Or.inl h
  · exact Or.inl h

lemma mem_getElem? {l : List fallingWord} {n : Nat} {a : fallingWord}
    (h : l[n]? = some a) : a ∈ l := by
  obtain ⟨hlt, rfl⟩ := List.getElem?_eq_some_iff.mp h
  exact List.getElem_mem hlt

/-- `findIdx?` on a list whose prefix all fails the predicate and whose next
element satisfies it. -/
lemma findIdx?_first (p : fallingWord → Bool) (a : fallingWord) (v : List fallingWord)
    (ha : p a = true) :
    ∀ u : List fallingWord, (∀ x ∈ u, p x = false) →
      (u ++ a :: v).findIdx? p = some u.length := by
  intro u
  induction u with
  | nil =>
    intro _
    rw [List.nil_append, List.findIdx?_cons, if_pos ha]
    rfl
  | cons x u ih =>
    intro hu
    have hx : p x = false := hu x (by simp)
    rw [List.cons_append, List.findIdx?_cons, if_neg (by simp [hx]), List.findIdx?_succ,
      ih (fun y hy => hu y (by simp [hy]))]
    rfl

lemma breachLoop_append (ph : Int) (l1 l2 : List fallingWord) :
    ∀ (lives : Int) (input tw : List Char) (acc : List fallingWord),
      breachLoop ph (l1 ++ l2) lives input tw acc =
        (match breachLoop ph l1 lives input tw acc with
         | .inl input' => .inl input'
         | .inr (acc', lives', input', tw') => breachLoop ph l2 lives' input' tw' acc') := by
  induction l1 with
  | nil => intro lives input tw acc; rfl
  | cons fw rest ih =>
    intro lives input tw acc
    by_cases hb : breached ph fw
    · rw [List.cons_append]
      simp only [breachLoop]
      rw [if_pos hb, if_pos hb]
      try dsimp only
      by_cases hl : lives - 1 ≤ 0
      · rw [if_pos hl, if_pos hl]
      · rw [if_neg hl, if_neg hl]
        exact ih _ _ _ _
    · rw [List.cons_append]
      simp only [breachLoop]
      rw [if_neg hb, if_neg hb]
      exact ih _ _ _ _

/-- On a list of inactive words the loop never clears the buffer or the
remembered target word. -/
lemma breachLoop_all_inactive (ph : Int) (ws : List fallingWord)
    (hws : ∀ x ∈ ws, x.active = false) :
    ∀ (lives : Int) (input tw : List Char) (acc : List fallingWord),
      (∃ input', breachLoop ph ws lives input tw acc = .inl input') ∨
      (∃ lives', breachLoop ph ws lives input tw acc =
        .inr (acc ++ ws.filter (fun fw => !breached ph fw), lives', input, tw)) := by
  induction ws with
  | nil =>
    intro lives input tw acc
    exact Or.inr ⟨lives, by simp [breachLoop]⟩
  | cons fw rest ih =>
    intro lives input tw acc
    have hfw : fw.active = false := hws fw (by simp)
    have hrest : ∀ x ∈ rest, x.active = false := fun x hx => hws x (by simp [hx])
    by_cases hb : breached ph fw
    · by_cases hl : lives - 1 ≤ 0
      · refine Or.inl ⟨if fw.active then [] else input, ?_⟩
        simp only [breachLoop]
        rw [if_pos hb]
        try dsimp only
        rw [if_pos hl]
      · have hfil : (fw :: rest).filter (fun fw => !breached ph fw) =
            rest.filter (fun fw => !breached ph fw) := by
          simp [List.filter_cons, hb]
        rcases ih hrest (lives - 1) (if fw.active then [] else input)
            (if fw.active then [] else tw) acc with ⟨input', heq⟩ | ⟨lives', heq⟩
        · refine Or.inl ⟨input', ?_⟩
          simp only [breachLoop]
          rw [if_pos hb]
          try dsimp only
          rw [if_neg hl]
          exact heq
        · refine Or.inr ⟨lives', ?_⟩
          simp only [breachLoop]
          rw [if_pos hb]
          try dsimp only
          rw [if_neg hl, heq, hfil, hfw]
          simp
    · have hfil : (fw :: rest).filter (fun fw => !breached ph fw) =
          fw :: rest.filter (fun fw => !breached ph fw) := by
        simp [List.filter_cons, hb]
      rcases ih hrest lives input tw (acc ++ [fw]) with ⟨input', heq⟩ | ⟨lives', heq⟩
      · refine Or.inl ⟨input', ?_⟩
        simp only [breachLoop]
        rw [if_neg hb]
        exact heq
      · refine Or.inr ⟨lives', ?_⟩
        simp only [breachLoop]
        rw [if_neg hb, heq, hfil]
        simp

/-- The loop on a list with exactly one active word `a`: either the early
game-over return, or `a` survives (buffer and remembered word untouched), or
`a` breaches (buffer and remembered word cleared). -/
lemma breachLoop_unique_active (ph : Int) (u : List fallingWord) (a : fallingWord)
    (v : List fallingWord) (hu : ∀ x ∈ u, x.active = false)
    (hv : ∀ x ∈ v, x.active = false) (ha : a.active = true) :
    ∀ (lives : Int) (input tw : List Char),
      (∃ input', breachLoop ph (u ++ a :: v) lives input tw [] = .inl input') ∨
      (breached ph a = false ∧ ∃ lives',
        breachLoop ph (u ++ a :: v) lives input tw [] =
          .inr (u.filter (fun fw => !breached ph fw) ++
                  a :: v.filter (fun fw => !breached ph fw),
                lives', input, tw)) ∨
      (breached ph a = true ∧ ∃ lives',
        breachLoop ph (u ++ a :: v) lives input tw [] =
          .inr (u.filter (fun fw => !breached ph fw) ++
                  v.filter (fun fw => !breached ph fw),
                lives', [], [])) := by
  intro lives input tw
  rw [breachLoop_append]
  rcases breachLoop_all_inactive ph u hu lives input tw [] with ⟨input', heq⟩ | ⟨lives1, heq⟩
  · rw [heq]
    exact Or.inl ⟨input', rfl⟩
  · rw [heq]
    try dsimp only
    by_cases hb : breached ph a
    · by_cases hl : lives1 - 1 ≤ 0
      · refine Or.inl ⟨if a.active then [] else input, ?_⟩
        simp only [breachLoop]
        rw [if_pos hb]
        try dsimp only
        rw [if_pos hl]
      · rcases breachLoop_all_inactive ph v hv (lives1 - 1) (if a.active then [] else input)
            (if a.active then [] else tw) ([] ++ u.filter (fun fw => !breached ph fw)) with
          ⟨input', heq2⟩ | ⟨lives2, heq2⟩
        · refine Or.inl ⟨input', ?_⟩
          simp only [breachLoop]
          rw [if_pos hb]
          try dsimp only
          rw [if_neg hl]
          exact heq2
        · refine Or.inr (Or.inr ⟨hb, lives2, ?_⟩)
          simp only [breachLoop]
          rw [if_pos hb]
          try dsimp only
          rw [if_neg hl, heq2, ha]
          simp
    · rcases breachLoop_all_inactive ph v hv lives1 input tw
          (([] ++ u.filter (fun fw => !breached ph fw)) ++ [a]) with
        ⟨input', heq2⟩ | ⟨lives2, heq2⟩
      · refine Or.inl ⟨input', ?_⟩
        simp only [breachLoop]
        rw [if_neg hb]
        exact heq2
      · refine Or.inr (Or.inl ⟨by simpa using hb, lives2, ?_⟩)
        simp only [breachLoop]
        rw [if_neg hb, heq2]
        simp

lemma retargetStep_nil (mm : model) : retargetStep mm [] = { mm with fallingTarget := -1 } := by
  unfold retargetStep
  rw [if_pos rfl]

lemma retargetStep_found (mm : model) (tw : List Char) (i : Nat) (h : ¬tw = [])
    (hidx : mm.fallingWords.findIdx? (fun fw => fw.active && fw.word == tw) = some i) :
    retargetStep mm tw = { mm with fallingTarget := (i : Int) } := by
  unfold retargetStep
  rw [if_neg h, hidx]

lemma retargetStep_notfound (mm : model) (tw : List Char) (h : ¬tw = [])
    (hidx : mm.fallingWords.findIdx? (fun fw => fw.active && fw.word == tw) = none) :
    retargetStep mm tw = { mm with fallingTarget := -1, fallingInput := [] } := by
  unfold retargetStep
  rw [if_neg h, hidx]

/-- Fields of the spawn step not covered by `spawnStep_cases`: the target
index and input buffer are untouched, and any appended word is inactive with
the supplied non-empty text. -/
lemma spawnStep_more (mm : model) (w : List Char) (f : Nat → Nat) :
    (spawnStep mm w f).fallingTarget = mm.fallingTarget ∧
    (spawnStep mm w f).fallingInput = mm.fallingInput := by
  unfold spawnStep
  dsimp only
  split
  · have h : ∀ mm' : model, (spawnFallingWord mm' w f).fallingTarget = mm'.fallingTarget ∧
        (spawnFallingWord mm' w f).fallingInput = mm'.fallingInput := by
      intro mm'
      unfold spawnFallingWord
      dsimp only
      split
      · exact ⟨rfl, rfl⟩
      · exact ⟨rfl, rfl⟩
    exact h { mm with fallingSpawnCD := mm.fallingSpawnCD - 1 }
  · exact ⟨rfl, rfl⟩

/-- Splitting a word list with a unique active word (located by
`activeImpliesTarget`) into inactive words before it, the word, and inactive
words after it. -/
lemma unique_active_split (m : model) (hinv : activeImpliesTarget m) (j : Nat)
    (a : fallingWord) (hj : m.fallingWords[j]? = some a) (ha : a.active = true) :
    m.fallingWords = m.fallingWords.take j ++ a :: m.fallingWords.drop (j + 1) ∧
    (∀ x ∈ m.fallingWords.take j, x.active = false) ∧
    (∀ x ∈ m.fallingWords.drop (j + 1), x.active = false) := by
  obtain ⟨hlt, hget⟩ := List.getElem?_eq_some_iff.mp hj
  have htgt : m.fallingTarget = (j : Int) := hinv j a hj ha
  refine ⟨?_, ?_, ?_⟩
  · conv_lhs => rw [← List.take_append_drop j m.fallingWords]
    rw [List.drop_eq_getElem_cons hlt, hget]
  · intro x hx
    by_contra hact
    have hact' : x.active = true := by simpa using hact
    obtain ⟨i, hi⟩ := List.mem_iff_getElem?.mp hx
    have hik : i < j := by
      by_contra hik
      rw [List.getElem?_take] at hi
      rw [if_neg hik] at hi
      exact Option.noConfusion hi
    rw [List.getElem?_take, if_pos hik] at hi
    have := hinv i x hi hact'
    omega
  · intro x hx
    by_contra hact
    have hact' : x.active = true := by simpa using hact
    obtain ⟨i, hi⟩ := List.mem_iff_getElem?.mp hx
    rw [List.getElem?_drop] at hi
    have := hinv (j + 1 + i) x hi hact'
    omega

lemma get_eq_of_getElem? {l : List fallingWord} {n : Nat} {a : fallingWord}
    (h : l[n]? = some a) (hn : n < l.length) : l.get ⟨n, hn⟩ = a := by
  obtain ⟨h1, h2⟩ := List.getElem?_eq_some_iff.mp h
  rw [List.get_eq_getElem]
  exact h2

/-- Lifting the invariant over the tail of `fallingTick` (target
re-resolution, spawn, speed update), given that it holds of the intermediate
state `m1` relative to the re-resolved target. -/
lemma tickTail_inv (m1 : model) (tw2 w : List Char) (f : Nat → Nat) (hw : w ≠ [])
    (hne : ∀ fw ∈ m1.fallingWords, fw.word ≠ [])
    (hACT : ∀ (j : Nat) (fw : fallingWord), m1.fallingWords[j]? = some fw →
        fw.active = true → (retargetStep m1 tw2).fallingTarget = (j : Int))
    (hEMP : (retargetStep m1 tw2).fallingInput = [] →
        ∀ fw ∈ m1.fallingWords, fw.active = false) :
    fallingInv { spawnStep (retargetStep m1 tw2) w f with
      fallingSpeed := fallingSpeedForTick (spawnStep (retargetStep m1 tw2) w f).fallingTicks } := by
  obtain ⟨hsw, -, -⟩ := spawnStep_cases (retargetStep m1 tw2) w f
  obtain ⟨hst, hsi⟩ := spawnStep_more (retargetStep m1 tw2) w f
  obtain ⟨hrw, -, -, -⟩ := retargetStep_fixed m1 tw2
  have hri : (retargetStep m1 tw2).fallingInput = m1.fallingInput ∨
      (retargetStep m1 tw2).fallingInput = [] := by
    unfold retargetStep
    split
    · exact Or.inl rfl
    · split
      · exact Or.inl rfl
      · exact Or.inr rfl
  refine ⟨?_, ?_, ?_⟩
  · intro fw hfw
    dsimp only at hfw
    rcases hsw with hsame | ⟨x, happ⟩
    · rw [hsame, hrw] at hfw
      exact hne fw hfw
    · rw [happ, hrw] at hfw
      rcases List.mem_append.mp hfw with h | h
      · exact hne fw h
      · have : fw = { word := w, x := x, y := 0, typed := 0, active := false } := by
          simpa using h
        rw [this]
        exact hw
  · intro j fw hj ha
    dsimp only at hj ⊢
    rw [hst]
    rcases hsw with hsame | ⟨x, happ⟩
    · rw [hsame, hrw] at hj
      exact hACT j fw hj ha
    · rw [happ, hrw] at hj
      rw [List.getElem?_append] at hj
      by_cases hlt : j < m1.fallingWords.length
      · rw [if_pos hlt] at hj
        exact hACT j fw hj ha
      · rw [if_neg hlt] at hj
        rcases List.getElem?_eq_some_iff.mp hj with ⟨hlen, hval⟩
        have hj0 : j - m1.fallingWords.length = 0 := by
          simp at hlen
          omega
        simp only [hj0] at hval
        have hfweq : fw = { word := w, x := x, y := 0, typed := 0, active := false } :=
          hval.symm
        rw [hfweq] at ha
        exact absurd ha (by simp)
  · intro hin fw hfw
    dsimp only at hin hfw
    have hin' : (retargetStep m1 tw2).fallingInput = [] := by
      rw [← hsi]
      exact hin
    rcases hsw with hsame | ⟨x, happ⟩
    · rw [hsame, hrw] at hfw
      exact hEMP hin' fw hfw
    · rw [happ, hrw] at hfw
      rcases List.mem_append.mp hfw with h | h
      · exact hEMP hin' fw h
      · have : fw = { word := w, x := x, y := 0, typed := 0, active := false } := by
          simpa using h
        rw [this]



lemma fallingTick_inv (m : model) (w : List Char) (f : Nat → Nat)
    (hinv : fallingInv m) (hw : w ≠ [])
    (hgo : (fallingTick m w f).fallingGameOver = false) :
    fallingInv (fallingTick m w f) := by
  obtain ⟨hne, hait, hnae⟩ := hinv
  by_cases hact : ∃ (j : Nat) (a : fallingWord), m.fallingWords[j]? = some a ∧ a.active = true
  · -- exactly one active word `a`, at index `j`
    obtain ⟨j, a, hj, haA⟩ := hact
    obtain ⟨hdecomp, hu, hv⟩ := unique_active_split m hait j a hj haA
    have hjl : j < m.fallingWords.length := (List.getElem?_eq_some_iff.mp hj).1
    have htgt : m.fallingTarget = (j : Int) := hait j a hj haA
    have haw : a.word ≠ [] := hne a (mem_getElem? hj)
    have hmdecomp : movedWords m =
        (m.fallingWords.take j).map (fun fw => { fw with y := fw.y + m.fallingSpeed }) ++
          ({ a with y := a.y + m.fallingSpeed } ::
            (m.fallingWords.drop (j + 1)).map
              (fun fw => { fw with y := fw.y + m.fallingSpeed })) := by
      unfold movedWords
      conv_lhs => rw [hdecomp]
      simp [List.map_append]
    have hu' : ∀ x ∈ (m.fallingWords.take j).map
        (fun fw => { fw with y := fw.y + m.fallingSpeed }), x.active = false := by
      intro x hx
      obtain ⟨y, hy, hxy⟩ := List.mem_map.mp hx
      rw [← hxy]
      exact hu y hy
    have hv' : ∀ x ∈ (m.fallingWords.drop (j + 1)).map
        (fun fw => { fw with y := fw.y + m.fallingSpeed }), x.active = false := by
      intro x hx
      obtain ⟨y, hy, hxy⟩ := List.mem_map.mp hx
      rw [← hxy]
      exact hv y hy
    have hTW : targetWordOf (tickAdvance m) = a.word := by
      have hcond : 0 ≤ (tickAdvance m).fallingTarget ∧
          (tickAdvance m).fallingTarget.toNat < (tickAdvance m).fallingWords.length := by
        constructor
        · show (0 : Int) ≤ m.fallingTarget
          rw [htgt]
          exact Int.natCast_nonneg j
        · show m.fallingTarget.toNat < (movedWords m).length
          rw [htgt, Int.toNat_natCast]
          unfold movedWords
          rw [List.length_map]
          exact hjl
      unfold targetWordOf
      rw [dif_pos hcond]
      have hmw : (tickAdvance m).fallingWords[(tickAdvance m).fallingTarget.toNat]? =
          some { a with y := a.y + m.fallingSpeed } := by
        show (movedWords m)[m.fallingTarget.toNat]? = _
        rw [htgt, Int.toNat_natCast]
        unfold movedWords
        rw [List.getElem?_map, hj]
        rfl
      rw [get_eq_of_getElem? hmw hcond.2]
    have hTWne : targetWordOf (tickAdvance m) ≠ [] := by
      rw [hTW]
      exact haw
    set fu : List fallingWord := ((m.fallingWords.take j).map
        (fun fw => { fw with y := fw.y + m.fallingSpeed })).filter
      (fun fw => !breached (playHeightOf m.height) fw) with hfu
    set fv : List fallingWord := ((m.fallingWords.drop (j + 1)).map
        (fun fw => { fw with y := fw.y + m.fallingSpeed })).filter
      (fun fw => !breached (playHeightOf m.height) fw) with hfv
    have hmemfu : ∀ x ∈ fu, x.active = false ∧ x.word ≠ [] := by
      intro x hx
      rw [hfu] at hx
      have hx' := List.mem_of_mem_filter hx
      obtain ⟨y, hy, hxy⟩ := List.mem_map.mp hx'
      exact ⟨by rw [← hxy]; exact hu y hy,
             by rw [← hxy]; exact hne y (List.mem_of_mem_take hy)⟩
    have hmemfv : ∀ x ∈ fv, x.active = false ∧ x.word ≠ [] := by
      intro x hx
      rw [hfv] at hx
      have hx' := List.mem_of_mem_filter hx
      obtain ⟨y, hy, hxy⟩ := List.mem_map.mp hx'
      exact ⟨by rw [← hxy]; exact hv y hy,
             by rw [← hxy]; exact hne y (List.mem_of_mem_drop hy)⟩
    rcases breachLoop_unique_active (playHeightOf m.height)
        ((m.fallingWords.take j).map (fun fw => { fw with y := fw.y + m.fallingSpeed }))
        { a with y := a.y + m.fallingSpeed }
        ((m.fallingWords.drop (j + 1)).map (fun fw => { fw with y := fw.y + m.fallingSpeed }))
        hu' hv' haA m.fallingLives m.fallingInput (targetWordOf (tickAdvance m)) with
      ⟨input', heq⟩ | ⟨hbF, lives', heq⟩ | ⟨hbT, lives', heq⟩
    · exfalso
      have hgot : (fallingTick m w f).fallingGameOver = true := by
        unfold fallingTick
        dsimp only
        rw [hmdecomp, heq]
        try dsimp only
        try rfl
      rw [hgot] at hgo
      exact Bool.noConfusion hgo
    · -- `a` survives: the target is re-found at index `fu.length`
      obtain ⟨M1, hrun, hM1w, hM1i⟩ : ∃ M1 : model,
          fallingTick m w f =
            { spawnStep (retargetStep M1 (targetWordOf (tickAdvance m))) w f with
              fallingSpeed := fallingSpeedForTick
                (spawnStep (retargetStep M1 (targetWordOf (tickAdvance m))) w f).fallingTicks } ∧
          M1.fallingWords = fu ++ { a with y := a.y + m.fallingSpeed } :: fv ∧
          M1.fallingInput = m.fallingInput := by
        refine ⟨{ tickAdvance m with
            fallingWords := fu ++ { a with y := a.y + m.fallingSpeed } :: fv
            fallingLives := lives'
            fallingInput := m.fallingInput }, ?_, rfl, rfl⟩
        unfold fallingTick
        dsimp only
        rw [hmdecomp, heq]
        try dsimp only
        try rfl
      have hinotempty : m.fallingInput ≠ [] := by
        intro habs
        have := hnae habs a (mem_getElem? hj)
        rw [haA] at this
        exact Bool.noConfusion this
      have hidx : M1.fallingWords.findIdx?
          (fun fw => fw.active && fw.word == targetWordOf (tickAdvance m)) =
          some fu.length := by
        rw [hM1w]
        apply findIdx?_first
        · rw [hTW]
          simp [haA]
        · intro x hx
          rw [(hmemfu x hx).1]
          simp
      have hret := retargetStep_found M1 (targetWordOf (tickAdvance m)) fu.length hTWne hidx
      rw [hrun]
      apply tickTail_inv
      · exact hw
      · intro fw hfw
        rw [hM1w] at hfw
        rcases List.mem_append.mp hfw with h | h
        · exact (hmemfu fw h).2
        · rcases List.mem_cons.mp h with h' | h'
          · rw [h']
            exact haw
          · exact (hmemfv fw h').2
      · intro j' fw hj' ha'
        rw [hret]
        rw [hM1w, List.getElem?_append] at hj'
        by_cases hlt : j' < fu.length
        · rw [if_pos hlt] at hj'
          have hin := (hmemfu fw (mem_getElem? hj')).1
          rw [hin] at ha'
          exact Bool.noConfusion ha'
        · rw [if_neg hlt] at hj'
          rcases Nat.eq_zero_or_pos (j' - fu.length) with hz | hp
          · show ((fu.length : Nat) : Int) = (j' : Int)
            omega
          · obtain ⟨k, hk⟩ := Nat.exists_eq_succ_of_ne_zero (by omega : j' - fu.length ≠ 0)
            rw [hk] at hj'
            rw [List.getElem?_cons_succ] at hj'
            have hin := (hmemfv fw (mem_getElem? hj')).1
            rw [hin] at ha'
            exact Bool.noConfusion ha'
      · intro hemp
        exfalso
        rw [hret] at hemp
        have h1 : M1.fallingInput = [] := hemp
        rw [hM1i] at h1
        exact hinotempty h1
    · -- `a` breaches: the buffer and remembered target word are cleared
      obtain ⟨M1, hrun, hM1w, hM1i⟩ : ∃ M1 : model,
          fallingTick m w f =
            { spawnStep (retargetStep M1 []) w f with
              fallingSpeed := fallingSpeedForTick
                (spawnStep (retargetStep M1 []) w f).fallingTicks } ∧
          M1.fallingWords = fu ++ fv ∧ M1.fallingInput = [] := by
        refine ⟨{ tickAdvance m with
            fallingWords := fu ++ fv
            fallingLives := lives'
            fallingInput := [] }, ?_, rfl, rfl⟩
        unfold fallingTick
        dsimp only
        rw [hmdecomp, heq]
        try dsimp only
        try rfl
      have hall : ∀ x ∈ M1.fallingWords, x.active = false ∧ x.word ≠ [] := by
        intro x hx
        rw [hM1w] at hx
        rcases List.mem_append.mp hx with h | h
        · exact hmemfu x h
        · exact hmemfv x h
      rw [hrun]
      apply tickTail_inv
      · exact hw
      · intro fw hfw
        exact (hall fw hfw).2
      · intro j' fw hj' ha'
        have hin := (hall fw (mem_getElem? hj')).1
        rw [hin] at ha'
        exact Bool.noConfusion ha'
      · intro _ fw hfw
        exact (hall fw hfw).1
  · -- no active word at all
    have hAllIn : ∀ x ∈ movedWords m, x.active = false := by
      intro x hx
      unfold movedWords at hx
      obtain ⟨y, hy, hxy⟩ := List.mem_map.mp hx
      obtain ⟨i, hi⟩ := List.mem_iff_getElem?.mp hy
      by_contra hxa
      have hxa' : x.active = true := by simpa using hxa
      rw [← hxy] at hxa'
      exact hact ⟨i, y, hi, hxa'⟩
    rcases breachLoop_all_inactive (playHeightOf m.height) (movedWords m) hAllIn
        m.fallingLives m.fallingInput (targetWordOf (tickAdvance m)) [] with
      ⟨input', heq⟩ | ⟨lives', heq⟩
    · exfalso
      have hgot : (fallingTick m w f).fallingGameOver = true := by
        unfold fallingTick
        dsimp only
        rw [heq]
        try dsimp only
        try rfl
      rw [hgot] at hgo
      exact Bool.noConfusion hgo
    · obtain ⟨M1, hrun, hM1w, hM1i⟩ : ∃ M1 : model,
          fallingTick m w f =
            { spawnStep (retargetStep M1 (targetWordOf (tickAdvance m))) w f with
              fallingSpeed := fallingSpeedForTick
                (spawnStep (retargetStep M1 (targetWordOf (tickAdvance m))) w f).fallingTicks } ∧
          M1.fallingWords = [] ++ (movedWords m).filter
            (fun fw => !breached (playHeightOf m.height) fw) ∧
          M1.fallingInput = m.fallingInput := by
        refine ⟨{ tickAdvance m with
            fallingWords := [] ++ (movedWords m).filter
              (fun fw => !breached (playHeightOf m.height) fw)
            fallingLives := lives'
            fallingInput := m.fallingInput }, ?_, rfl, rfl⟩
        unfold fallingTick
        dsimp only
        rw [heq]
        try dsimp only
        try rfl
      have hall : ∀ x ∈ M1.fallingWords, x.active = false ∧ x.word ≠ [] := by
        intro x hx
        rw [hM1w, List.nil_append] at hx
        have hx' := List.mem_of_mem_filter hx
        refine ⟨hAllIn x hx', ?_⟩
        unfold movedWords at hx'
        obtain ⟨y, hy, hxy⟩ := List.mem_map.mp hx'
        rw [← hxy]
        exact hne y hy
      rw [hrun]
      apply tickTail_inv
      · exact hw
      · intro fw hfw
        exact (hall fw hfw).2
      · intro j' fw hj' ha'
        have hin := (hall fw (mem_getElem? hj')).1
        rw [hin] at ha'
        exact Bool.noConfusion ha'
      · intro _ fw hfw
        exact (hall fw hfw).1
lemma modifyWord_getElem_split (ws : List fallingWord) (i : Int) (f : fallingWord → fallingWord)
    (j : Nat) (fw : fallingWord) (h : (modifyWord ws i f)[j]? = some fw) :
    (ws[j]? = some fw ∧ (j ≠ i.toNat ∨ ¬(0 ≤ i ∧ i.toNat < ws.length))) ∨
    (0 ≤ i ∧ j = i.toNat ∧ ∃ fw', ws[j]? = some fw' ∧ fw = f fw') := by
  unfold modifyWord at h
  split at h
  · next hc =>
    by_cases hj : j = i.toNat
    · subst hj
      rw [List.getElem?_set_self hc.2] at h
      refine Or.inr ⟨hc.1, rfl, ws.get ⟨i.toNat, hc.2⟩, ?_, (Option.some.inj h).symm⟩
      rw [List.getElem?_eq_some_iff]
      exact ⟨hc.2, rfl⟩
    · rw [List.getElem?_set_ne (fun hh => hj hh.symm)] at h
      exact Or.inl ⟨h, Or.inl hj⟩
  · next hc => exact Or.inl ⟨h, Or.inr hc⟩

lemma initFallingState_inv (m : model) : fallingInv (initFallingState m) := by
  refine ⟨?_, ?_, ?_⟩
  · intro fw hfw
    simp [initFallingState] at hfw
  · intro j fw hfw _
    simp [initFallingState] at hfw
  · intro _ fw hfw
    simp [initFallingState] at hfw

lemma backspace_invalid_eq (m : model) (hne : m.fallingInput ≠ [])
    (hbad : ¬(0 ≤ m.fallingTarget ∧ m.fallingTarget < (m.fallingWords.length : Int))) :
    handleFallingKey m .backspace = { m with fallingInput := m.fallingInput.dropLast } := by
  simp only [handleFallingKey]
  rw [if_pos (List.length_pos.mpr hne)]
  try dsimp only
  rw [if_neg hbad]
  rw [if_neg (fun habs => hbad ⟨habs.2.1, habs.2.2⟩)]

/-- After a valid backspace-to-empty, every word of the doubly-modified list
is inactive. -/
lemma backspace_clear_all (m : model) (hait : activeImpliesTarget m)
    (h0 : 0 ≤ m.fallingTarget) (hl : m.fallingTarget < (m.fallingWords.length : Int)) :
    ∀ (j : Nat) (fw : fallingWord),
      (modifyWord (modifyWord m.fallingWords m.fallingTarget
          (fun fw => { fw with typed := m.fallingInput.dropLast.length }))
        m.fallingTarget (fun fw => { fw with active := false, typed := 0 }))[j]? = some fw →
      fw.active = false := by
  intro j fw hj
  have hlen : (modifyWord m.fallingWords m.fallingTarget
      (fun fw => { fw with typed := m.fallingInput.dropLast.length })).length =
      m.fallingWords.length := modifyWord_length _ _ _
  rcases modifyWord_getElem_split _ _ _ _ _ hj with ⟨h1, hdis⟩ | ⟨_, _, fw', _, rfl⟩
  · have hjT : j ≠ m.fallingTarget.toNat := by
      rcases hdis with h | h
      · exact h
      · exfalso
        apply h
        rw [hlen]
        omega
    rcases modifyWord_getElem_split _ _ _ _ _ h1 with ⟨h2, _⟩ | ⟨_, hjT', _, _, _⟩
    · by_contra hactv
      have hactv' : fw.active = true := by simpa using hactv
      have := hait j fw h2 hactv'
      omega
    · exact absurd hjT' hjT
  · rfl
lemma runeSelectStage_inv (m : model) (c : Char) (hinv : fallingInv m) :
    fallingInv (runeSelectStage m c) := by
  obtain ⟨hne, hait, hnae⟩ := hinv
  by_cases ht : m.fallingTarget = -1
  · rw [runeSelectStage_of_no_target m c ht]
    by_cases hsel : 0 ≤ findTarget { m with fallingInput := m.fallingInput ++ [c] } c
    · rw [if_pos hsel]
      obtain ⟨t, htEq, fw0, hfw0, hfw0inact⟩ := findTarget_spec _ c hsel
      refine ⟨?_, ?_, ?_⟩
      · intro fw hfw
        dsimp only at hfw
        rcases mem_modifyWord hfw with h | ⟨fw', hfw', rfl⟩
        · exact hne fw h
        · exact hne fw' hfw'
      · intro j fw hj ha
        dsimp only at hj ⊢
        rcases modifyWord_getElem_split _ _ _ _ _ hj with ⟨h1, _⟩ | ⟨_, hjT, _, _, _⟩
        · have := hait j fw h1 ha
          rw [ht] at this
          omega
        · rw [hjT, htEq, Int.toNat_natCast]
      · intro hemp
        exact absurd hemp (by simp)
    · rw [if_neg hsel]
      refine ⟨?_, ?_, ?_⟩
      · intro fw hfw
        exact hne fw hfw
      · intro j fw hj ha
        dsimp only at hj ⊢
        have := hait j fw hj ha
        rw [ht] at this
        omega
      · intro hemp
        exact absurd hemp (by simp)
  · by_cases hl : m.fallingTarget < (m.fallingWords.length : Int)
    · rw [runeSelectStage_of_target m c ht hl]
      refine ⟨?_, ?_, ?_⟩
      · intro fw hfw
        dsimp only at hfw
        rcases mem_modifyWord hfw with h | ⟨fw', hfw', rfl⟩
        · exact hne fw h
        · exact hne fw' hfw'
      · intro j fw hj ha
        dsimp only at hj ⊢
        rcases modifyWord_getElem_split _ _ _ _ _ hj with ⟨h1, _⟩ | ⟨_, _, fw', hfw', rfl⟩
        · exact hait j fw h1 ha
        · exact hait j fw' hfw' ha
      · intro hemp
        exact absurd hemp (by simp)
    · rw [runeSelectStage_of_stale_target m c ht hl]
      refine ⟨?_, ?_, ?_⟩
      · intro fw hfw
        exact hne fw hfw
      · intro j fw hj ha
        exact hait j fw hj ha
      · intro hemp
        exact absurd hemp (by simp)

lemma runeDestroyCheck_inv (mm : model) (h : fallingInv mm) :
    fallingInv (runeDestroyCheck mm) := by
  obtain ⟨hne, hait, hnae⟩ := h
  unfold runeDestroyCheck
  split
  · next hc =>
    dsimp only
    split
    · refine ⟨?_, ?_, ?_⟩
      · intro fw hfw
        dsimp only at hfw
        exact hne fw (List.eraseIdx_subset _ _ hfw)
      · intro j fw hj ha
        dsimp only at hj ⊢
        rw [List.getElem?_eraseIdx] at hj
        by_cases hjT : j < mm.fallingTarget.toNat
        · rw [if_pos hjT] at hj
          have := hait j fw hj ha
          omega
        · rw [if_neg hjT] at hj
          have := hait (j + 1) fw hj ha
          omega
      · intro _ fw hfw
        dsimp only at hfw
        obtain ⟨j, hj⟩ := List.mem_iff_getElem?.mp hfw
        rw [List.getElem?_eraseIdx] at hj
        by_contra hactv
        have hactv' : fw.active = true := by simpa using hactv
        by_cases hjT : j < mm.fallingTarget.toNat
        · rw [if_pos hjT] at hj
          have := hait j fw hj hactv'
          omega
        · rw [if_neg hjT] at hj
          have := hait (j + 1) fw hj hactv'
          omega
    · exact ⟨hne, hait, hnae⟩
  · exact ⟨hne, hait, hnae⟩

lemma handleFallingKey_inv (m : model) (k : keyMsg) (hinv : fallingInv m) :
    fallingInv (handleFallingKey m k) := by
  cases k with
  | esc => exact fallingInv_of_eq rfl rfl rfl hinv
  | tab => exact initFallingState_inv m
  | space => exact hinv
  | rune c =>
    have h1 := runeSelectStage_inv m c hinv
    obtain ⟨tws, twt, twi, -⟩ := turretStage_core (runeSelectStage m c)
    exact runeDestroyCheck_inv _ (fallingInv_of_eq tws twt twi h1)
  | backspace =>
    obtain ⟨hne, hait, hnae⟩ := hinv
    by_cases hni : m.fallingInput = []
    · have hsame : handleFallingKey m .backspace = m := by
        simp only [handleFallingKey]
        rw [if_neg (by simp [hni])]
      rw [hsame]
      exact ⟨hne, hait, hnae⟩
    · by_cases hvt : 0 ≤ m.fallingTarget ∧ m.fallingTarget < (m.fallingWords.length : Int)
      · rw [backspace_valid_eq m hvt.1 hvt.2 hni]
        have hlen : (modifyWord m.fallingWords m.fallingTarget
            (fun fw => { fw with typed := m.fallingInput.dropLast.length })).length =
            m.fallingWords.length := modifyWord_length _ _ _
        by_cases hdone : (m.fallingInput.dropLast.length = 0 ∧ 0 ≤ m.fallingTarget ∧
            m.fallingTarget <
              ((modifyWord m.fallingWords m.fallingTarget
                (fun fw => { fw with typed := m.fallingInput.dropLast.length })).length : Int))
        · rw [if_pos hdone]
          have hALL := backspace_clear_all m hait hvt.1 hvt.2
          refine ⟨?_, ?_, ?_⟩
          · intro fw hfw
            dsimp only at hfw
            rcases mem_modifyWord hfw with h | ⟨fw', hfw', rfl⟩
            · rcases mem_modifyWord h with h2 | ⟨fw'', hfw'', rfl⟩
              · exact hne fw h2
              · exact hne fw'' hfw''
            · rcases mem_modifyWord hfw' with h2 | ⟨fw'', hfw'', rfl⟩
              · exact hne fw' h2
              · exact hne fw'' hfw''
          · intro j fw hj ha
            dsimp only at hj
            rw [hALL j fw hj] at ha
            exact Bool.noConfusion ha
          · intro _ fw hfw
            dsimp only at hfw
            obtain ⟨j, hj⟩ := List.mem_iff_getElem?.mp hfw
            exact hALL j fw hj
        · rw [if_neg hdone]
          refine ⟨?_, ?_, ?_⟩
          · intro fw hfw
            dsimp only at hfw
            rcases mem_modifyWord hfw with h | ⟨fw', hfw', rfl⟩
            · exact hne fw h
            · exact hne fw' hfw'
          · intro j fw hj ha
            dsimp only at hj ⊢
            rcases modifyWord_getElem_split _ _ _ _ _ hj with ⟨h1, _⟩ | ⟨_, _, fw', hfw', rfl⟩
            · exact hait j fw h1 ha
            · exact hait j fw' hfw' ha
          · intro hemp
            exfalso
            apply hdone
            refine ⟨?_, hvt.1, ?_⟩
            · have : m.fallingInput.dropLast = [] := hemp
              rw [this]
              rfl
            · rw [hlen]
              exact hvt.2
      · rw [backspace_invalid_eq m hni hvt]
        refine ⟨?_, ?_, ?_⟩
        · intro fw hfw
          exact hne fw hfw
        · intro j fw hj ha
          exact hait j fw hj ha
        · intro hemp fw hfw
          dsimp only at hfw
          by_contra hactv
          have hactv' : fw.active = true := by simpa using hactv
          obtain ⟨j, hj⟩ := List.mem_iff_getElem?.mp hfw
          have hT := hait j fw hj hactv'
          apply hvt
          have hjl : j < m.fallingWords.length := (List.getElem?_eq_some_iff.mp hj).1
          omega
lemma singleton_inv (m : model) (w0 : fallingWord)
    (hws : m.fallingWords = [w0]) (hw0 : w0.word ≠ [])
    (ht : m.fallingTarget = 0) (hin : m.fallingInput ≠ []) :
    fallingInv m := by
  refine ⟨?_, ?_, ?_⟩
  · intro fw hfw
    rw [hws] at hfw
    rw [List.mem_singleton.mp hfw]
    exact hw0
  · intro j fw hj _
    rw [hws] at hj
    cases j with
    | zero =>
      rw [ht]
      simp
    | succ n =>
      rw [List.getElem?_cons_succ] at hj
      simp at hj
  · intro hemp
    exact absurd hemp hin

/-- **C6 (amended).** The invariant "no word is active while the input buffer
is empty" (together with the supporting facts that live words are nonempty and
that any active word sits exactly at the committed target index) holds after a
restart, is preserved by every keystroke (`esc`, `tab`, `space`, `backspace`,
and character runes), and is preserved by every simulation tick that does not
set `gameOver`; in particular a backspace that empties the buffer from a
validly committed target clears the target index to `-1`, empties the buffer,
deactivates every word, and resets the target word's flags to
`active = false, typed = 0`. (On the tick that sets `gameOver` the invariant
is *not* preserved: see the counterexample.) -/
theorem C6_empty_buffer_invariant (m : model) (k : keyMsg) (w : List Char) (f : Nat → Nat) :
    fallingInv (initFallingState m) ∧
    (fallingInv m → fallingInv (handleFallingKey m k)) ∧
    (fallingInv m → w ≠ [] → (fallingTick m w f).fallingGameOver = false →
      fallingInv (fallingTick m w f)) ∧
    (fallingInv m → m.fallingInput.length = 1 → 0 ≤ m.fallingTarget →
      m.fallingTarget < (m.fallingWords.length : Int) →
      (handleFallingKey m .backspace).fallingTarget = -1 ∧
      (handleFallingKey m .backspace).fallingInput = [] ∧
      (∀ fw ∈ (handleFallingKey m .backspace).fallingWords, fw.active = false) ∧
      ∃ fw, (handleFallingKey m .backspace).fallingWords[m.fallingTarget.toNat]? =
        some fw ∧ fw.active = false ∧ fw.typed = 0) := by
  refine ⟨initFallingState_inv m, fun hi => handleFallingKey_inv m k hi,
    fun hi hw hgo => fallingTick_inv m w f hi hw hgo, ?_⟩
  intro hinv h1 h0 hl
  have hni : m.fallingInput ≠ [] := by
    intro h
    rw [h] at h1
    simp at h1
  have hdl : m.fallingInput.dropLast.length = 0 := by
    rw [List.length_dropLast, h1]
  have hlen : (modifyWord m.fallingWords m.fallingTarget
      (fun fw => { fw with typed := m.fallingInput.dropLast.length })).length =
      m.fallingWords.length := modifyWord_length _ _ _
  rw [backspace_valid_eq m h0 hl hni]
  rw [if_pos (show m.fallingInput.dropLast.length = 0 ∧ 0 ≤ m.fallingTarget ∧
      m.fallingTarget <
        ((modifyWord m.fallingWords m.fallingTarget
          (fun fw => { fw with typed := m.fallingInput.dropLast.length })).length : Int) from
    ⟨hdl, h0, by rw [hlen]; exact hl⟩)]
  refine ⟨rfl, ?_, ?_, ?_⟩
  · show m.fallingInput.dropLast = []
    exact List.eq_nil_of_length_eq_zero hdl
  · intro fw hfw
    dsimp only at hfw
    obtain ⟨j, hj⟩ := List.mem_iff_getElem?.mp hfw
    exact backspace_clear_all m hinv.2.1 h0 hl j fw hj
  · have hl2 : m.fallingTarget.toNat <
        (modifyWord m.fallingWords m.fallingTarget
          (fun fw => { fw with typed := m.fallingInput.dropLast.length })).length := by
      rw [hlen]
      omega
    have hget := modifyWord_getElem_self (modifyWord m.fallingWords m.fallingTarget
        (fun fw => { fw with typed := m.fallingInput.dropLast.length })) m.fallingTarget
        (fun fw => { fw with active := false, typed := 0 }) h0 hl2
    exact ⟨_, hget, rfl, rfl⟩

def C6goModel : model :=
  { state := .stateFalling, width := 40, height := 10, correctWords := 0
    fallingWords := [{ word := ['w'], x := 10, y := 4.8, typed := 1, active := true }]
    fallingInput := ['w'], fallingTarget := 0, fallingLives := 1, fallingScore := 0
    fallingSpeed := 0.3, fallingSpawnCD := 5, fallingTicks := 0, fallingGameOver := false
    fallingCharsTyped := 0, turretX := 20, turretStartX := 20, explosions := [], laser := none }

/-- **C6 as stated is false on the game-over tick**: from a state satisfying
the invariant, the tick that sets `gameOver` returns early after clearing the
input buffer, but leaves the breached word in the list with `active = true` —
a word is active while the buffer is empty. -/
theorem C6_counterexample :
    fallingInv C6goModel ∧
    (fallingTick C6goModel ['q'] (fun _ => 0)).fallingGameOver = true ∧
    (fallingTick C6goModel ['q'] (fun _ => 0)).fallingInput = [] ∧
    ¬noActiveOnEmptyInput (fallingTick C6goModel ['q'] (fun _ => 0)) := by
  refine ⟨singleton_inv C6goModel { word := ['w'], x := 10, y := 4.8, typed := 1, active := true }
      rfl (by decide) rfl (by decide), by decide, by decide, ?_⟩
  intro h
  have hmem : ({ word := ['w'], x := 10, y := 5.1, typed := 1, active := true } : fallingWord) ∈
      (fallingTick C6goModel ['q'] (fun _ => 0)).fallingWords := by decide
  have := h (by decide) _ hmem
  exact absurd this (by decide)

def C6wModel : model :=
  { state := .stateFalling, width := 40, height := 20, correctWords := 0
    fallingWords := [{ word := ['w','x'], x := 10, y := 2, typed := 1, active := true }]
    fallingInput := ['w'], fallingTarget := 0, fallingLives := 3, fallingScore := 0
    fallingSpeed := 0.3, fallingSpawnCD := 5, fallingTicks := 0, fallingGameOver := false
    fallingCharsTyped := 0, turretX := 20, turretStartX := 20, explosions := [], laser := none }

lemma C6wModel_inv : fallingInv C6wModel :=
  singleton_inv C6wModel { word := ['w','x'], x := 10, y := 2, typed := 1, active := true }
    rfl (by decide) rfl (by decide)

/-- Witness for C6 at a concrete live state: one active two-letter word,
one buffered character; the backspace clears everything and the non-game-over
tick preserves the invariant. -/
theorem C6_witness :
    fallingInv C6wModel ∧
    C6wModel.fallingInput.length = 1 ∧
    0 ≤ C6wModel.fallingTarget ∧
    C6wModel.fallingTarget < (C6wModel.fallingWords.length : Int) ∧
    ['q'] ≠ ([] : List Char) ∧
    (fallingTick C6wModel ['q'] (fun _ => 0)).fallingGameOver = false ∧
    fallingInv (handleFallingKey C6wModel .backspace) ∧
    fallingInv (fallingTick C6wModel ['q'] (fun _ => 0)) ∧
    ((handleFallingKey C6wModel .backspace).fallingTarget = -1 ∧
     (handleFallingKey C6wModel .backspace).fallingInput = [] ∧
     (∀ fw ∈ (handleFallingKey C6wModel .backspace).fallingWords, fw.active = false) ∧
     ∃ fw, (handleFallingKey C6wModel .backspace).fallingWords[C6wModel.fallingTarget.toNat]? =
       some fw ∧ fw.active = false ∧ fw.typed = 0) :=
  ⟨C6wModel_inv, by decide, by decide, by decide, by decide, by decide,
   (C6_empty_buffer_invariant C6wModel .backspace ['q'] (fun _ => 0)).2.1 C6wModel_inv,
   (C6_empty_buffer_invariant C6wModel .backspace ['q'] (fun _ => 0)).2.2.1 C6wModel_inv
     (by decide) (by decide),
   (C6_empty_buffer_invariant C6wModel .backspace ['q'] (fun _ => 0)).2.2.2 C6wModel_inv
     (by decide) (by decide) (by decide)⟩
